import Mathlib

/-!
Verification development for the document-processing pipeline
(ingest → OCR → aggregation → LLM classification → PII redaction).

Each handler's decision logic is embedded as executable Lean definitions,
translated from the Python sources under `src/lambda/`.  External services
(S3, DynamoDB, Textract, Step Functions) are modelled as oracles/state that
the embedded code reads and writes, mirroring exactly the calls the Python
code makes.
-/

namespace DocProc

/-! ## Ingest handler (`src/lambda/ingest_handler.py`)

One S3 page-arrival record is processed by `processRecord`.  The model keeps
a single logical document (all events share one base name, which is the
situation the claims quantify over): `find_existing_document_id` is modelled
as returning this document when it exists. -/

/-- Maximal leading digit run of a character list, with the remainder
(models the greedy `\d+` / `\d*` of the Python regexes). -/
def digitRun : List Char → List Char × List Char
  | [] => ([], [])
  | c :: cs =>
    if c.isDigit then
      let (d, r) := digitRun cs
      (c :: d, r)
    else ([], c :: cs)

/-- Numeric value of a digit run (models Python `int(...)` on the group). -/
def natOfDigits (ds : List Char) : Nat :=
  ds.foldl (fun n c => n * 10 + (c.toNat - 48)) 0

/-- After a separator, try to read `(\d+)\.(.+)$`: a nonempty digit run,
a literal dot, and a nonempty extension running to the end. -/
def afterSep (cs : List Char) : Option (List Char × List Char) :=
  let (ds, r) := digitRun cs
  match ds, r with
  | [], _ => none
  | _, '.' :: ext => if ext = [] then none else some (ds, ext)
  | _, _ => none

/-- Scan of `^(.+?)[_-](\d+)\.(.+)$`: the non-greedy stem grows one
character at a time; at each position the next character is tried as the
separator.  `stem` is the (nonempty) reversed-free prefix seen so far. -/
def scanPage (stem : List Char) : List Char → Option (List Char × Nat × List Char)
  | [] => none
  | c :: cs =>
    if c = '_' ∨ c = '-' then
      match afterSep cs with
      | some (ds, ext) => some (stem, natOfDigits ds, ext)
      | none => scanPage (stem ++ [c]) cs
    else scanPage (stem ++ [c]) cs

/-- Split `^(.+)\.(.+)$` with a greedy first group: the stem is everything
before the last dot that leaves a nonempty extension. -/
def extSplit : List Char → Option (List Char × List Char)
  | [] => none
  | c :: cs =>
    match extSplit cs with
    | some (stem, ext) => some (c :: stem, ext)
    | none => if c = '.' ∧ cs ≠ [] then some ([], cs) else none

/-- Filename correlator of the ingest handler (lines 108–124): returns
`(base_filename, page_number, file_extension)`, or `none` for an
unexpected format (which the handler skips). -/
def parseFilename (filename : String) : Option (String × Nat × String) :=
  match filename.data with
  | [] => none
  | c :: cs =>
    match scanPage [c] cs with
    | some (stem, n, ext) => some (⟨stem⟩, n, ⟨ext⟩)
    | none =>
      match extSplit (c :: cs) with
      | some ([], _) => none
      | some (stem, ext) => some (⟨stem⟩, 1, ⟨ext⟩)
      | none => none

/-- Supported extensions (ingest handler line 137). -/
def supportedExts : List String := ["jpg", "jpeg", "png", "pdf"]

/-- Accepted MIME types (ingest handler line 147). -/
def validMimeTypes : List String := ["image/jpeg", "image/png", "application/pdf"]

/-- Split a character list on a separator character (Python `str.split`:
the result is always nonempty, with empty pieces kept). -/
def splitOnChar (sep : Char) : List Char → List (List Char)
  | [] => [[]]
  | c :: cs =>
    let r := splitOnChar sep cs
    if c = sep then [] :: r
    else
      match r with
      | h :: t => (c :: h) :: t
      | [] => [[c]]

/-- Last path component of an object key (`key.split('/')[-1]`). -/
def lastComponent (key : String) : String :=
  ⟨(splitOnChar '/' key.data).getLastD key.data⟩

/-- Lower-casing (Python `str.lower()` on ASCII data). -/
def lowerStr (s : String) : String := ⟨s.data.map Char.toLower⟩

/-- One page-arrival record: the object key and the result of
`head_object` for it (`none` models the `head_object` call raising). -/
structure IngestEvent where
  key : String
  contentType : Option String
  deriving Repr, DecidableEq

/-- The DynamoDB document record (the fields the ingest handler touches). -/
structure Doc where
  status : String
  pages : List String
  pagesReceived : Nat
  originalFilename : String
  deriving Repr, DecidableEq

/-- Ingest-side state: the (single logical) document record, plus the page
lists handed to each Step Functions execution started so far, in order. -/
structure IngestState where
  doc : Option Doc
  started : List (List String)
  deriving Repr, DecidableEq

/-- Validation pipeline of one record (lines 100–156): incoming/ prefix,
filename format, supported extension, MIME check.  Returns the filename on
acceptance; `none` means the record is skipped with no state change. -/
def acceptEvent (ev : IngestEvent) : Option String :=
  if "incoming/".data.isPrefixOf ev.key.data then
    let filename := lastComponent ev.key
    match parseFilename filename with
    | none => none
    | some (_, _, ext) =>
      if lowerStr ext ∈ supportedExts then
        match ev.contentType with
        | none => none
        | some ct => if ct ∈ validMimeTypes then some filename else none
      else none
  else none

/-- Document update + start decision for one accepted record
(ingest handler lines 160–282). -/
def applyEvent (st : IngestState) (key filename : String) : IngestState :=
  let docItem : Doc :=
    match st.doc with
    | some d => d
    | none => { status := "AWAITING_PAGES", pages := [], pagesReceived := 0,
                originalFilename := filename }
  let status := docItem.status
  let pages := if key ∈ docItem.pages then docItem.pages else docItem.pages ++ [key]
  let doc1 : Doc :=
    { docItem with
      pages := pages
      pagesReceived := pages.length
      status :=
        if pages.length = 1 then "AWAITING_PAGES"
        else if status = "COMPLETE" ∧ pages.length > 1 then "AWAITING_PAGES"
        else docItem.status
      originalFilename :=
        if pages.length = 1 then filename else docItem.originalFilename }
  let shouldStart :=
    (pages.length = 1 ∧ status = "AWAITING_PAGES") ∨
    (status = "COMPLETE" ∧ pages.length > 1) ∨
    (status = "AWAITING_PAGES" ∧ pages.length > 1)
  if shouldStart then
    { doc := some { doc1 with status := "OCR_RUNNING" },
      started := st.started ++ [pages] }
  else
    { doc := some doc1, started := st.started }

/-- Processing of one S3 record by the ingest handler. -/
def processRecord (st : IngestState) (ev : IngestEvent) : IngestState :=
  match acceptEvent ev with
  | none => st
  | some filename => applyEvent st ev.key filename

/-- A whole sequence of page-arrival events, starting from no document. -/
def runIngest (evs : List IngestEvent) : IngestState :=
  evs.foldl processRecord { doc := none, started := [] }

/-! ### Lemmas about the ingest step -/

/-- Invariant carried by the ingest state: the page list has no duplicates
and `pages_received` equals its length. -/
def docInv (st : IngestState) : Prop :=
  ∀ d, st.doc = some d → d.pages.Nodup ∧ d.pagesReceived = d.pages.length

/-- Concrete first-page event used by witnesses. -/
def evPage1 : IngestEvent := ⟨"incoming/doc_1.jpg", some "image/jpeg"⟩

/-- Concrete second-page event used by witnesses. -/
def evPage2 : IngestEvent := ⟨"incoming/doc_2.jpg", some "image/jpeg"⟩

/-- Document record reached after the first page started processing. -/
def docAfterPage1 : Doc :=
  { status := "OCR_RUNNING", pages := ["incoming/doc_1.jpg"],
    pagesReceived := 1, originalFilename := "doc_1.jpg" }

/-- Decimal digits of a natural number (Python `str(n)` / f-string). -/
def digitChar (d : Nat) : Char :=
  if d = 0 then '0' else if d = 1 then '1' else if d = 2 then '2'
  else if d = 3 then '3' else if d = 4 then '4' else if d = 5 then '5'
  else if d = 6 then '6' else if d = 7 then '7' else if d = 8 then '8'
  else '9'

def natDigitsGo : Nat → Nat → List Char
  | 0, _ => []
  | fuel + 1, n =>
    if n < 10 then [digitChar n]
    else natDigitsGo fuel (n / 10) ++ [digitChar (n % 10)]

def natDigits (n : Nat) : List Char := natDigitsGo (n + 1) n

/-- Decimal rendering of a natural number. -/
def natStr (n : Nat) : String := ⟨natDigits n⟩

/-- Outcome of polling one Textract job. -/
inductive PollResult where
  | succeeded (text : String)
  | failed (msg : String)
  | inProgress
  | invalidJob
  deriving Repr, DecidableEq

/-- External-call oracle for one OCR invocation. -/
structure OcrEnv where
  poll : String → PollResult
  syncText : String → String
  freshId : Nat → String

/-- Mutable state threaded through one OCR invocation. -/
structure OcrState where
  jobs : List (String × String)
  keys : List String
  puts : List (String × String)
  counter : Nat
  deriving Repr, DecidableEq

/-- Dictionary lookup (`page_key in textract_jobs` / `textract_jobs[k]`). -/
def lookupJob : List (String × String) → String → Option String
  | [], _ => none
  | (k', v) :: rest, k => if k' = k then some v else lookupJob rest k

/-- Dictionary assignment (`textract_jobs[k] = v`). -/
def setJob : List (String × String) → String → String → List (String × String)
  | [], k, v => [(k, v)]
  | (k', v') :: rest, k, v =>
    if k' = k then (k, v) :: rest else (k', v') :: setJob rest k v

/-- First index of an element (`pages.index(page_key)`). -/
def idxOf : List String → String → Nat
  | [], _ => 0
  | y :: ys, x => if y = x then 0 else idxOf ys x + 1

/-- Per-page text artifact key
(`staging/{document_id}/text_page_{page_number}.txt`). -/
def textKey (docId : String) (n : Nat) : String :=
  "staging/" ++ docId ++ "/text_page_" ++ natStr n ++ ".txt"

/-- `ocr_text_keys.append(k)` guarded by `if k not in ocr_text_keys`. -/
def appendIfAbsent (l : List String) (k : String) : List String :=
  if k ∈ l then l else l ++ [k]

/-- Processing of one page in the main loop (ocr_handler.py lines 51–150).
The first block polls an already-recorded async job; the second block
submits work for a page with no recorded job.  An `InvalidJobIdException`
is swallowed (line 88–90), after which the `page_key not in textract_jobs`
guard is checked on the unchanged dictionary. -/
def ocrPage (docId : String) (pages : List String) (single : Bool)
    (env : OcrEnv) (st : OcrState) (page : String) : Except String OcrState :=
  let first : Except String OcrState :=
    match lookupJob st.jobs page with
    | some jid =>
      if single then .ok st
      else
        match env.poll jid with
        | .succeeded text =>
          let k := textKey docId (idxOf pages page + 1)
          .ok { st with puts := st.puts ++ [(k, text)],
                        keys := appendIfAbsent st.keys k }
        | .failed msg =>
          .error ("Textract job failed for " ++ page ++ ": " ++ msg)
        | .inProgress => .ok st
        | .invalidJob => .ok st
    | none => .ok st
  match first with
  | .error msg => .error msg
  | .ok st' =>
    match lookupJob st'.jobs page with
    | some _ => .ok st'
    | none =>
      if single then
        let text := env.syncText page
        let k := textKey docId 1
        .ok { st' with puts := st'.puts ++ [(k, text)],
                       keys := appendIfAbsent st'.keys k,
                       jobs := setJob st'.jobs page "SYNC_COMPLETE" }
      else
        .ok { st' with jobs := setJob st'.jobs page (env.freshId st'.counter),
                       counter := st'.counter + 1 }

/-- The `for page_key in pages` loop; a raised exception aborts it. -/
def ocrLoop (docId : String) (pages : List String) (single : Bool)
    (env : OcrEnv) : OcrState → List String → Except String OcrState
  | st, [] => .ok st
  | st, p :: ps =>
    match ocrPage docId pages single env st p with
    | .error msg => .error msg
    | .ok st' => ocrLoop docId pages single env st' ps

/-- Completion re-check for one page (ocr_handler.py lines 163–187): the
sync sentinel for single-page documents, a fresh poll returning
`SUCCEEDED` for multi-page ones; any exception (e.g. an invalid job id)
makes the page count as not complete. -/
def pageComplete (single : Bool) (poll : String → PollResult)
    (jobs : List (String × String)) (page : String) : Bool :=
  match lookupJob jobs page with
  | none => false
  | some jid =>
    if single then jid = "SYNC_COMPLETE"
    else
      match poll jid with
      | .succeeded _ => true
      | _ => false

/-- Result of one OCR invocation: transition to `AGGREGATING`, report
still-in-progress, or raise (which marks the document `FAILED` with the
message as `last_error`). -/
inductive OcrOutcome where
  | complete (st : OcrState)
  | stillInProgress (st : OcrState)
  | error (msg : String)
  deriving Repr, DecidableEq

/-- One invocation of the OCR handler on document state
`(textract_jobs = jobs₀, ocr_text_keys = keys₀)`. -/
def runOcrHandler (docId : String) (pages : List String) (env : OcrEnv)
    (jobs₀ : List (String × String)) (keys₀ : List String) : OcrOutcome :=
  if pages.isEmpty then .error "No pages provided for OCR processing"
  else
    let single := pages.length == 1
    match ocrLoop docId pages single env
        { jobs := jobs₀, keys := keys₀, puts := [], counter := 0 } pages with
    | .error msg => .error msg
    | .ok st =>
      if pages.all (fun p => pageComplete single env.poll st.jobs p) then
        .complete st
      else .stillInProgress st

/-- Poll oracle where page 1's job is still running and page 2's job has
succeeded. -/
def envPartial : OcrEnv :=
  { poll := fun j => if j = "J1" then .inProgress
      else if j = "J2" then .succeeded "T2" else .inProgress,
    syncText := fun _ => "S", freshId := fun n => "NEW" ++ natStr n }

/-- Poll oracle where both recorded jobs have succeeded. -/
def envAllSucceed : OcrEnv :=
  { poll := fun j => if j = "J1" then .succeeded "T1"
      else if j = "J2" then .succeeded "T2" else .inProgress,
    syncText := fun _ => "S", freshId := fun n => "NEW" ++ natStr n }

/-- Poll oracle where page 1's job handle has expired (every poll raises
`InvalidJobIdException`) and page 2's job has succeeded. -/
def envExpired : OcrEnv :=
  { poll := fun j => if j = "J1" then .invalidJob
      else if j = "J2" then .succeeded "T2" else .inProgress,
    syncText := fun _ => "S", freshId := fun n => "NEW" ++ natStr n }

/-- Poll oracle where page 1's job has failed. -/
def envFailedJob : OcrEnv :=
  { poll := fun j => if j = "J1" then .failed "boom" else .inProgress,
    syncText := fun _ => "S", freshId := fun n => "NEW" ++ natStr n }

/-- Poll oracle where page 1's job handle is invalid and page 2's job is
still running. -/
def envInvalidJob : OcrEnv :=
  { poll := fun j => if j = "J1" then .invalidJob else .inProgress,
    syncText := fun _ => "S", freshId := fun n => "NEW" ++ natStr n }

/-- Document state persisted after a first invocation in which only
page 2's job had finished. -/
def ocrStA : OcrState :=
  { jobs := [("p1", "J1"), ("p2", "J2")],
    keys := ["staging/d/text_page_2.txt"],
    puts := [("staging/d/text_page_2.txt", "T2")], counter := 0 }

/-- One page's contribution: `f"--- Page {n} ---\n{text}\n\n"`. -/
def pageChunk (n : Nat) (text : String) : String :=
  "--- Page " ++ natStr n ++ " ---\n" ++ text ++ "\n\n"

/-- The accumulation loop with its running index and accumulator. -/
def aggAux (read : String → String) : Nat → String → List String → String
  | _, acc, [] => acc
  | i, acc, k :: ks => aggAux read (i + 1) (acc ++ pageChunk (i + 1) (read k)) ks

/-- `combined_text` produced by the aggregator for `ocr_text_keys`. -/
def aggregate (read : String → String) (keys : List String) : String :=
  aggAux read 0 "" keys

/-- Modelled from the spec's words (§4.5 / §8): the aggregated artifact is
the concatenation, in list order, of a `--- Page N ---` header (N counting
from 1) followed by a newline, the page's text, and a blank line. -/
def specAggregate : Nat → List String → String
  | _, [] => ""
  | n, t :: ts => pageChunk n t ++ specAggregate (n + 1) ts

/-! ## PII redaction geometry (`src/lambda/pii_handler.py`, `redact_image`)

Lines 340–354: normalized Textract bounding boxes are converted to pixel
coordinates with Python `int()` (truncation), padded by 8 pixels on every
side with `max(0, ·)` on the left/top and `min(imageSize, ·)` on the
right/bottom, and painted.  Coordinates are modelled as exact rationals. -/

structure BBox where
  left : ℚ
  top : ℚ
  width : ℚ
  height : ℚ
  deriving Repr, DecidableEq

/-- Python `int()`: truncation toward zero. -/
def pyInt (q : ℚ) : ℤ := if q < 0 then ⌈q⌉ else ⌊q⌋

structure PixelRect where
  left : ℤ
  top : ℤ
  right : ℤ
  bottom : ℤ
  deriving Repr, DecidableEq

/-- The rectangle painted by `redact_image` for one bounding box on a
`W × H` image. -/
def redactRect (bbox : BBox) (W H : ℕ) : PixelRect :=
  let l := pyInt (bbox.left * W)
  let t := pyInt (bbox.top * H)
  let r := pyInt ((bbox.left + bbox.width) * W)
  let b := pyInt ((bbox.top + bbox.height) * H)
  { left := max 0 (l - 8), top := max 0 (t - 8),
    right := min (W : ℤ) (r + 8), bottom := min (H : ℤ) (b + 8) }

/-- Modelled from the spec's words (§4.6): conversion of the normalized
region to pixel coordinates. -/
def toPixelRect (bbox : BBox) (W H : ℕ) : PixelRect :=
  { left := pyInt (bbox.left * W), top := pyInt (bbox.top * H),
    right := pyInt ((bbox.left + bbox.width) * W),
    bottom := pyInt ((bbox.top + bbox.height) * H) }

/-- Modelled from the spec's words: expansion by a fixed padding on every
side. -/
def padRect (p : ℤ) (r : PixelRect) : PixelRect :=
  { left := r.left - p, top := r.top - p,
    right := r.right + p, bottom := r.bottom + p }

/-- Modelled from the spec's words: clamping to `[0,W] × [0,H]`. -/
def clampRect (W H : ℕ) (r : PixelRect) : PixelRect :=
  { left := max 0 (min (W : ℤ) r.left), top := max 0 (min (H : ℤ) r.top),
    right := max 0 (min (W : ℤ) r.right),
    bottom := max 0 (min (H : ℤ) r.bottom) }

/-- `delete_object`. -/
def s3del : List (String × String) → String → List (String × String)
  | [], _ => []
  | (k', v) :: rest, k =>
    if k' = k then s3del rest k else (k', v) :: s3del rest k

/-- Fuel-driven core of Python `str.replace` (all non-overlapping
occurrences, scanning left to right). -/
def replaceAllGo (pat rep : List Char) : Nat → List Char → List Char
  | 0, s => s
  | fuel + 1, s =>
    match s with
    | [] => []
    | c :: cs =>
      if pat.isPrefixOf (c :: cs) then
        rep ++ replaceAllGo pat rep fuel ((c :: cs).drop pat.length)
      else c :: replaceAllGo pat rep fuel cs

/-- Python `str.replace` on character lists (the empty-pattern case is
never exercised by the handler and is modelled as the identity). -/
def replaceAll (pat rep s : List Char) : List Char :=
  if pat = [] then s else replaceAllGo pat rep s.length s

/-- `page_key.replace('incoming/', f'complete/{document_id}/')`. -/
def pyReplace (s pat rep : String) : String :=
  ⟨replaceAll pat.data rep.data s.data⟩

/-- Python substring containment (`sub in s`). -/
def occursIn (pat : List Char) : List Char → Bool
  | [] => pat.isPrefixOf []
  | c :: cs => pat.isPrefixOf (c :: cs) || occursIn pat cs

/-- Python `str.find`: index of the first occurrence. -/
def strFind (needle : List Char) : List Char → Option Nat
  | [] => if needle = [] then some 0 else none
  | c :: cs =>
    if needle.isPrefixOf (c :: cs) then some 0
    else (strFind needle cs).map (· + 1)

/-- Per-page failure oracle for `copy_object` / `delete_object` inside
`move_files_to_complete`'s try block. -/
structure MoveEnv where
  copyFails : String → Bool
  deleteFails : String → Bool

/-- `move_files_to_complete` (llm_handler.py lines 336–362): per page,
compute the destination key, copy, delete the original, and record the
destination; any failing step skips the rest of that page's block. -/
def moveFiles (env : MoveEnv) (docId : String) :
    List (String × String) → List String →
      List (String × String) × List String
  | store, [] => (store, [])
  | store, p :: ps =>
    let nk := pyReplace p "incoming/" ("complete/" ++ docId ++ "/")
    match lookupJob store p with
    | none => moveFiles env docId store ps
    | some v =>
      if env.copyFails p then moveFiles env docId store ps
      else
        let store1 := setJob store nk v
        if env.deleteFails p then moveFiles env docId store1 ps
        else
          let res := moveFiles env docId (s3del store1 p) ps
          (res.1, nk :: res.2)

/-- Key of the structured results artifact
(`results/{document_id}_response.json`). -/
def resultKeyOf (docId : String) : String :=
  "results/" ++ docId ++ "_response.json"

/-- Final record state written by the LLM handler. -/
structure LlmState where
  store : List (String × String)
  status : String
  resultKey : Option String
  movedFiles : Option (List String)
  documentType : Option String
  lastError : Option String
  deriving Repr, DecidableEq

/-- One invocation of the LLM handler around the classification outcome
(`.ok document_type` on success, `.error msg` when the API call failed):
store the results JSON, move the pages, mark `COMPLETE`; on classification
failure mark `FAILED` with `last_error`. -/
def runLlmHandler (env : MoveEnv) (docId : String) (pages : List String)
    (classification : Except String String) (resultsJson : String)
    (store : List (String × String)) : LlmState :=
  match classification with
  | .error msg =>
    { store := store, status := "FAILED", resultKey := none,
      movedFiles := none, documentType := none,
      lastError := some ("OpenAI API call failed: " ++ msg) }
  | .ok docType =>
    let store1 := setJob store (resultKeyOf docId) resultsJson
    let mv := moveFiles env docId store1 pages
    { store := mv.1, status := "COMPLETE",
      resultKey := some (resultKeyOf docId), movedFiles := some mv.2,
      documentType := some docType, lastError := none }

/-- Failure-free move environment: every copy and delete succeeds. -/
def mvEnvOk : MoveEnv := ⟨fun _ => false, fun _ => false⟩

/-- `text[n]` (character-level indexing). -/
def charAt (cs : List Char) (n : Nat) : Option Char := cs.get? n

/-- The character before position `i`, if any. -/
def prevChar (cs : List Char) (i : Nat) : Option Char :=
  if i = 0 then none else cs.get? (i - 1)

/-- Python `\s` (ASCII whitespace). -/
def pySpace (c : Char) : Bool :=
  c = ' ' || c = '\t' || c = '\n' || c = '\r' ||
    c = Char.ofNat 11 || c = Char.ofNat 12

def asciiUpper (c : Char) : Bool := 'A' ≤ c && c ≤ 'Z'

def asciiLower (c : Char) : Bool := 'a' ≤ c && c ≤ 'z'

def asciiAlpha (c : Char) : Bool := asciiUpper c || asciiLower c

/-- Python `\w` / `\b` word characters (ASCII). -/
def wordChar (c : Char) : Bool := asciiAlpha c || c.isDigit || c = '_'

def isWordOpt : Option Char → Bool
  | none => false
  | some c => wordChar c

/-- Python `\b`: the characters on the two sides of position `i` disagree
on word-ness (out of range counts as non-word). -/
def atBoundary (cs : List Char) (i : Nat) : Bool :=
  isWordOpt (prevChar cs i) != isWordOpt (charAt cs i)

/-- Regular-expression syntax used by the handler's patterns.  `starSat`
is a greedy `*` over a one-character class (the only starred subterms in
the source patterns); `boundary` is `\b`. -/
inductive RE where
  | void : RE
  | eps : RE
  | sat : (Char → Bool) → RE
  | cat : RE → RE → RE
  | alt : RE → RE → RE
  | starSat : (Char → Bool) → RE
  | boundary : RE

/-- Greedy `(sat p)*` in continuation-passing style: try consuming more
characters first, backtracking one at a time (fuel bounds the input
length). -/
def starGreedy {α : Type} (cs : List Char) (p : Char → Bool) :
    Nat → Nat → (Nat → Option α) → Option α
  | 0, i, k => k i
  | fuel + 1, i, k =>
    match charAt cs i with
    | none => k i
    | some c => if p c then starGreedy cs p fuel (i + 1) k <|> k i else k i

/-- Backtracking matcher in continuation-passing style, mirroring the
`re` engine's strategy: ordered alternation, greedy repetition. -/
def matchRE {α : Type} (cs : List Char) :
    RE → Nat → (Nat → Option α) → Option α
  | .void, _, _ => none
  | .eps, i, k => k i
  | .sat p, i, k =>
    match charAt cs i with
    | none => none
    | some c => if p c then k (i + 1) else none
  | .cat r₁ r₂, i, k => matchRE cs r₁ i (fun j => matchRE cs r₂ j k)
  | .alt r₁ r₂, i, k => matchRE cs r₁ i k <|> matchRE cs r₂ i k
  | .starSat p, i, k => starGreedy cs p (cs.length + 1) i k
  | .boundary, i, k => if atBoundary cs i then k i else none

/-- A literal character under `re.IGNORECASE`. -/
def reChr (c : Char) : RE := .sat (fun x => x.toLower = c.toLower)

/-- A literal string under `re.IGNORECASE`. -/
def reStr (s : String) : RE := s.data.foldr (fun c r => .cat (reChr c) r) .eps

def reSeq (l : List RE) : RE := l.foldr .cat .eps

/-- Ordered alternation `(?:a|b|...)`. -/
def reAlts (l : List RE) : RE := l.foldr .alt .void

/-- `p+` (one or more, greedy). -/
def rePlus (p : Char → Bool) : RE := .cat (.sat p) (.starSat p)

/-- `r?` (greedy option). -/
def reOpt (r : RE) : RE := .alt r .eps

/-- `p{n}` (exactly `n`). -/
def reRepSat (p : Char → Bool) : Nat → RE
  | 0 => .eps
  | n + 1 => .cat (.sat p) (reRepSat p n)

/-- `\b\d{3}-\d{2}-\d{4}\b`. -/
def ssnRE : RE :=
  reSeq [.boundary, reRepSat Char.isDigit 3, reChr '-',
    reRepSat Char.isDigit 2, reChr '-', reRepSat Char.isDigit 4, .boundary]

/-- `\b\d{4}[\s-]?\d{4}[\s-]?\d{4}[\s-]?\d{4}\b`. -/
def accountNumberRE : RE :=
  reSeq [.boundary, reRepSat Char.isDigit 4,
    reOpt (.sat (fun c => pySpace c || c = '-')), reRepSat Char.isDigit 4,
    reOpt (.sat (fun c => pySpace c || c = '-')), reRepSat Char.isDigit 4,
    reOpt (.sat (fun c => pySpace c || c = '-')), reRepSat Char.isDigit 4,
    .boundary]

/-- `\b[A-Za-z0-9._%+-]+@[A-Za-z0-9.-]+\.[A-Z|a-z]{2,}\b`
(the TLD class really contains `|` in the source). -/
def emailRE : RE :=
  reSeq [.boundary,
    rePlus (fun c => asciiAlpha c || c.isDigit || c = '.' || c = '_' ||
      c = '%' || c = '+' || c = '-'),
    reChr '@',
    rePlus (fun c => asciiAlpha c || c.isDigit || c = '.' || c = '-'),
    reChr '.',
    .sat (fun c => asciiAlpha c || c = '|'),
    .sat (fun c => asciiAlpha c || c = '|'),
    .starSat (fun c => asciiAlpha c || c = '|'),
    .boundary]

/-- `\b\d{3}[-.]?\d{3}[-.]?\d{4}\b`. -/
def phoneRE : RE :=
  reSeq [.boundary, reRepSat Char.isDigit 3,
    reOpt (.sat (fun c => c = '-' || c = '.')), reRepSat Char.isDigit 3,
    reOpt (.sat (fun c => c = '-' || c = '.')), reRepSat Char.isDigit 4,
    .boundary]

/-- `\b\d+\s+[A-Za-z\s]+(?:Street|St|...|Court|Ct)\b`. -/
def addressRE : RE :=
  reSeq [.boundary, rePlus Char.isDigit, rePlus pySpace,
    rePlus (fun c => asciiAlpha c || pySpace c),
    reAlts (["Street", "St", "Avenue", "Ave", "Road", "Rd", "Drive", "Dr",
      "Lane", "Ln", "Boulevard", "Blvd", "Way", "Circle", "Cir", "Court",
      "Ct"].map reStr),
    .boundary]

/-- `\b\d{5}(?:-\d{4})?\b`. -/
def zipCodeRE : RE :=
  reSeq [.boundary, reRepSat Char.isDigit 5,
    reOpt (reSeq [reChr '-', reRepSat Char.isDigit 4]), .boundary]

/-- The `patterns` dict of `detect_pii_in_text`, in insertion order:
`(type, pattern, confidence)`. -/
def piiPatterns : List (String × RE × String) :=
  [("ssn", ssnRE, "high"),
   ("account_number", accountNumberRE, "high"),
   ("email", emailRE, "high"),
   ("phone", phoneRE, "medium"),
   ("address", addressRE, "medium"),
   ("zip_code", zipCodeRE, "low")]

/-- The captured group `([A-Z][a-z]+\s+[A-Z][a-z]+)` (under `IGNORECASE`
both classes fold to letters). -/
def nameGroupRE : RE :=
  reSeq [.sat asciiAlpha, rePlus asciiAlpha, rePlus pySpace,
    .sat asciiAlpha, rePlus asciiAlpha]

/-- Prefixes of the three `name_contexts` patterns (everything before the
captured group). -/
def nameContextPres : List RE :=
  [.cat (reAlts (["Dear", "To", "From", "Mr.", "Mrs.", "Ms.",
      "Dr."].map reStr)) (rePlus pySpace),
   reSeq [reAlts (["Name", "Applicant", "Customer",
      "Client"].map reStr), reChr ':', .starSat pySpace],
   reSeq [reAlts (["Signed", "By"].map reStr), reChr ':',
     .starSat pySpace]]

/-- `re.finditer`: scan left to right, emit `(start, end)` spans, resume
after each match (one past it when the match is empty). -/
def findIterGo (cs : List Char) (pat : RE) : Nat → Nat → List (Nat × Nat)
  | 0, _ => []
  | fuel + 1, i =>
    if i > cs.length then []
    else
      match matchRE cs pat i some with
      | some j =>
        if j ≤ i then (i, j) :: findIterGo cs pat fuel (i + 1)
        else (i, j) :: findIterGo cs pat fuel j
      | none => findIterGo cs pat fuel (i + 1)

def findIter (cs : List Char) (pat : RE) : List (Nat × Nat) :=
  findIterGo cs pat (cs.length + 2) 0

/-- `re.finditer` for a `pre(group)` pattern whose group ends the match:
emit `(start, groupStart, groupEnd)`. -/
def findIterGrpGo (cs : List Char) (pre grp : RE) :
    Nat → Nat → List (Nat × Nat × Nat)
  | 0, _ => []
  | fuel + 1, i =>
    if i > cs.length then []
    else
      match matchRE cs pre i
        (fun j => matchRE cs grp j (fun e => some (j, e))) with
      | some (g1s, g1e) =>
        if g1e ≤ i then (i, g1s, g1e) :: findIterGrpGo cs pre grp fuel (i + 1)
        else (i, g1s, g1e) :: findIterGrpGo cs pre grp fuel g1e
      | none => findIterGrpGo cs pre grp fuel (i + 1)

def findIterGrp (cs : List Char) (pre grp : RE) : List (Nat × Nat × Nat) :=
  findIterGrpGo cs pre grp (cs.length + 2) 0

/-- Python slice `text[i:j]` on characters. -/
def sliceStr (cs : List Char) (i j : Nat) : String :=
  ⟨(cs.drop i).take (j - i)⟩

/-- One entry of the `pii_detections` list. -/
structure PiiDetection where
  ptype : String
  text : String
  startPos : Nat
  endPos : Nat
  confidence : String
  deriving Repr, DecidableEq

/-- `is_likely_personal_name` (lines 249–279). -/
def is_likely_personal_name (name fullText : String) : Bool :=
  let businessIndicators := ["LLC", "Inc", "Corp", "Company", "Associates",
    "Group", "Partners", "Chevrolet", "Ford", "Toyota", "Honda", "BMW",
    "Mercedes", "Audi", "Bank", "Credit", "Union", "Insurance", "Agency",
    "Services"]
  if businessIndicators.any
      (fun ind => occursIn (lowerStr ind).data (lowerStr name).data) then
    false
  else
    let businessContexts := ["from", "at", "company", "business", "dealer",
      "dealership"]
    match strFind (lowerStr name).data (lowerStr fullText).data with
    | none => true
    | some namePos =>
      let cstart := namePos - 50
      let cend := min fullText.data.length (namePos + name.data.length + 50)
      let context := lowerStr (sliceStr fullText.data cstart cend)
      ! businessContexts.any (fun b => occursIn b.data context.data)

/-- `detect_pii_in_text` (lines 180–247): the six patterns in dict order,
then the three name contexts with the `is_likely_personal_name` filter;
name detections use the group's span and text. -/
def detect_pii_in_text (text : String) : List PiiDetection :=
  let cs := text.data
  (piiPatterns.map (fun pc =>
    (findIter cs pc.2.1).map (fun ij =>
      { ptype := pc.1, text := sliceStr cs ij.1 ij.2,
        startPos := ij.1, endPos := ij.2, confidence := pc.2.2 }))).join
  ++
  (nameContextPres.map (fun pre =>
    (findIterGrp cs pre nameGroupRE).filterMap (fun sge =>
      let nm := sliceStr cs sge.2.1 sge.2.2
      if is_likely_personal_name nm text then
        some ⟨"personal_name", nm, sge.2.1, sge.2.2, "medium"⟩
      else none))).join

/-- `text_to_boxes[text] = bbox` with Python-dict semantics (overwrite in
place, insert at the end). -/
def upsertBox : List (String × BBox) → String → BBox → List (String × BBox)
  | [], k, v => [(k, v)]
  | (k', v') :: rest, k, v =>
    if k' = k then (k, v) :: rest else (k', v') :: upsertBox rest k v

def lookupBox : List (String × BBox) → String → Option BBox
  | [], _ => none
  | (k', v) :: rest, k => if k' = k then some v else lookupBox rest k

/-- The `text_to_boxes` dict built from the Textract LINE blocks. -/
def buildTextToBoxes (blocks : List (String × BBox)) : List (String × BBox) :=
  blocks.foldl (fun d tb => upsertBox d tb.1 tb.2) []

structure MappedBox where
  ptype : String
  text : String
  box : BBox
  confidence : String
  deriving Repr, DecidableEq

/-- `map_pii_to_bounding_boxes` (lines 281–320): exact key match first,
otherwise the first LINE block containing the PII text case-insensitively;
a detection with no match contributes nothing. -/
def mapPiiToBoxes (dets : List PiiDetection)
    (tr : Option (List (String × BBox))) : List MappedBox :=
  match tr with
  | none => []
  | some blocks =>
    let dict := buildTextToBoxes blocks
    dets.filterMap (fun pii =>
      match lookupBox dict pii.text with
      | some bbox => some ⟨pii.ptype, pii.text, bbox, pii.confidence⟩
      | none =>
        (dict.find? (fun tb =>
          occursIn (lowerStr pii.text).data (lowerStr tb.1).data)).map
          (fun tb => ⟨pii.ptype, pii.text, tb.2, pii.confidence⟩))

/-- Oracles for the per-page S3/Textract/PIL interactions: `s3read` is
`get_object` on an OCR text key (`none` = the read raises), `textract`
returns the LINE blocks of `detect_document_text` (`none` = the call
raises), `imageOk` is whether `redact_image`'s try block succeeds. -/
structure PiiEnv where
  s3read : String → Option String
  textract : String → Option (List (String × BBox))
  imageOk : String → Bool

/-- Key of a redacted page image
(`results/{document_id}_page_{page_num}_redacted.jpg`). -/
def redactedKeyOf (docId : String) (n : Nat) : String :=
  "results/" ++ docId ++ "_page_" ++ natStr n ++ "_redacted.jpg"

/-- What one page contributes to the run. -/
structure PagePiiOutcome where
  detections : List PiiDetection
  redactedKey : Option String
  deriving Repr, DecidableEq

/-- One iteration of the page loop (lines 73–99): `get_ocr_text` falls
back to `""`, detection runs on that text, and only a non-empty detection
list triggers mapping and redaction. -/
def processPiiPage (env : PiiEnv) (docId : String) (pageNum : Nat)
    (pageKey ocrKey : String) : PagePiiOutcome :=
  let text := (env.s3read ocrKey).getD ""
  let tr := env.textract pageKey
  let dets := detect_pii_in_text text
  if dets.isEmpty then { detections := dets, redactedKey := none }
  else
    let boxes := mapPiiToBoxes dets tr
    let rk := if env.imageOk pageKey then
        some (redactedKeyOf docId pageNum) else none
    { detections := dets, redactedKey := rk }

def piiOutcomes (env : PiiEnv) (docId : String)
    (pages ocrKeys : List String) : List PagePiiOutcome :=
  ((pages.zip ocrKeys).enum).map
    (fun x => processPiiPage env docId (x.1 + 1) x.2.1 x.2.2)

/-- Aggregate record state written by the PII handler. -/
structure PiiRunResult where
  piiComplete : Bool
  piiError : Option String
  pageOutcomes : List PagePiiOutcome
  detectedPii : Bool
  redactedImages : List String
  deriving Repr, DecidableEq

/-- One invocation of the PII handler: the empty-`ocr_text_keys` guard
raises (record marked not-complete with the error), otherwise every page
of `zip(pages, ocr_text_keys)` is processed and the record gets
`pii_processing_complete = True`, `pii_error = None`. -/
def runPiiHandler (env : PiiEnv) (docId : String)
    (pages ocrKeys : List String) : PiiRunResult :=
  if ocrKeys.isEmpty then
    { piiComplete := false,
      piiError := some "No OCR text keys provided for PII processing",
      pageOutcomes := [], detectedPii := false, redactedImages := [] }
  else
    let outcomes := piiOutcomes env docId pages ocrKeys
    { piiComplete := true, piiError := none, pageOutcomes := outcomes,
      detectedPii := outcomes.any (fun o => !o.detections.isEmpty),
      redactedImages := outcomes.filterMap (fun o => o.redactedKey) }

/-- Oracle with every OCR text read failing. -/
def piiEnvMissing : PiiEnv :=
  ⟨fun _ => none, fun _ => none, fun _ => true⟩


/-! ## Theorems -/

/-- The document after `applyEvent` always carries the deduplicated page
list and `pages_received = len(pages)`. -/
theorem applyEvent_doc_some (st : IngestState) (key fn : String) (d : Doc)
    (h : st.doc = some d) :
    ∃ d', (applyEvent st key fn).doc = some d' ∧
      d'.pages = (if key ∈ d.pages then d.pages else d.pages ++ [key]) ∧
      d'.pagesReceived = d'.pages.length := by
  unfold applyEvent
  rw [h]
  dsimp only
  split_ifs with hmem hs hs <;> exact ⟨_, rfl, rfl, rfl⟩

/-- The document after `applyEvent` on a fresh state holds exactly the new
page. -/
theorem applyEvent_doc_none (st : IngestState) (key fn : String)
    (h : st.doc = none) :
    ∃ d', (applyEvent st key fn).doc = some d' ∧
      d'.pages = [key] ∧ d'.pagesReceived = 1 := by
  unfold applyEvent
  rw [h]
  dsimp only
  have : key ∉ ([] : List String) := List.not_mem_nil key
  split_ifs with hmem hs hs <;> first
    | exact absurd hmem this
    | exact ⟨_, rfl, rfl, rfl⟩

theorem docInv_processRecord (st : IngestState) (ev : IngestEvent)
    (hinv : docInv st) : docInv (processRecord st ev) := by
  unfold processRecord
  cases hacc : acceptEvent ev with
  | none => exact hinv
  | some fn =>
    intro d' hd'
    cases hdoc : st.doc with
    | none =>
      obtain ⟨d'', hd'', hp, hr⟩ := applyEvent_doc_none st ev.key fn hdoc
      rw [hd''] at hd'
      cases hd'
      refine ⟨?_, ?_⟩
      · rw [hp]; exact List.nodup_singleton _
      · rw [hp, hr]; rfl
    | some d =>
      obtain ⟨hnd, hrc⟩ := hinv d hdoc
      obtain ⟨d'', hd'', hp, hr⟩ := applyEvent_doc_some st ev.key fn d hdoc
      rw [hd''] at hd'
      cases hd'
      refine ⟨?_, hr⟩
      rw [hp]
      split_ifs with hmem
      · exact hnd
      · rw [(List.perm_append_singleton ev.key d.pages).nodup_iff,
          List.nodup_cons]
        exact ⟨hmem, hnd⟩

theorem docInv_runIngestAux (evs : List IngestEvent) :
    ∀ st, docInv st → docInv (evs.foldl processRecord st) := by
  induction evs with
  | nil => intro st h; exact h
  | cons ev evs ih =>
    intro st h
    exact ih _ (docInv_processRecord st ev h)

theorem docInv_runIngest (evs : List IngestEvent) : docInv (runIngest evs) := by
  apply docInv_runIngestAux
  intro d hd
  cases hd

theorem runIngest_snoc (evs : List IngestEvent) (ev : IngestEvent) :
    runIngest (evs ++ [ev]) = processRecord (runIngest evs) ev := by
  unfold runIngest
  rw [List.foldl_append]
  rfl

/-- C1: For every sequence of page-arrival events for one document,
processing an event whose object key is already present in the document's
`pages` list leaves `pages` and `pages_received` unchanged, and after every
event `pages` contains no duplicate keys and `pages_received` equals the
length of `pages`. -/
theorem ingest_duplicate_page_idempotent_and_invariant
    (evs : List IngestEvent) :
    (∀ d, (runIngest evs).doc = some d →
        d.pages.Nodup ∧ d.pagesReceived = d.pages.length) ∧
    (∀ ev d, (runIngest evs).doc = some d → ev.key ∈ d.pages →
        ∃ d', (runIngest (evs ++ [ev])).doc = some d' ∧
          d'.pages = d.pages ∧ d'.pagesReceived = d.pagesReceived) := by
  refine ⟨docInv_runIngest evs, ?_⟩
  intro ev d hd hmem
  rw [runIngest_snoc]
  have hinv := docInv_runIngest evs d hd
  unfold processRecord
  cases hacc : acceptEvent ev with
  | none => exact ⟨d, hd, rfl, rfl⟩
  | some fn =>
    obtain ⟨d', hd', hp, hr⟩ := applyEvent_doc_some (runIngest evs) ev.key fn d hd
    rw [if_pos hmem] at hp
    exact ⟨d', hd', hp, by rw [hr, hp, hinv.2]⟩

/-- C1 witness: re-delivering the first page's notification leaves the page
list and the count unchanged. -/
theorem ingest_duplicate_page_idempotent_and_invariant_witness :
    ∃ d', (runIngest ([evPage1] ++ [evPage1])).doc = some d' ∧
      d'.pages = ["incoming/doc_1.jpg"] ∧ d'.pagesReceived = 1 := by
  have h := (ingest_duplicate_page_idempotent_and_invariant [evPage1]).2
      evPage1 docAfterPage1 (by decide) (by decide)
  simpa [docAfterPage1] using h

/-- C2 counterexample: for a two-page burst
(`incoming/doc_1.jpg` then `incoming/doc_2.jpg`), the ingest handler starts
OCR immediately on the first page alone: after the first event the document
is already `OCR_RUNNING`, and after both events exactly one Step Functions
execution has been started and it carries only the first page — the start is
never deferred and never re-issued with both pages. -/
theorem ingest_two_page_burst_not_merged_cex :
    (runIngest [⟨"incoming/doc_1.jpg", some "image/jpeg"⟩]).doc.map Doc.status
        = some "OCR_RUNNING" ∧
    (runIngest [⟨"incoming/doc_1.jpg", some "image/jpeg"⟩,
                ⟨"incoming/doc_2.jpg", some "image/jpeg"⟩]).started
        = [["incoming/doc_1.jpg"]] := by decide

/-- C2 (amended): there is no batching window.  The first page of a new
document starts processing immediately (`OCR_RUNNING`) with only that page;
a further page accepted while the document is `OCR_RUNNING` is appended to
`pages` but starts nothing; a further page accepted while the document is
`AWAITING_PAGES` or `COMPLETE` triggers a new start with the full page
list. -/
theorem ingest_start_policy :
    (∀ st ev fn, st.doc = none → acceptEvent ev = some fn →
      (processRecord st ev).started = st.started ++ [[ev.key]] ∧
      (processRecord st ev).doc.map Doc.status = some "OCR_RUNNING") ∧
    (∀ st ev fn d, st.doc = some d → acceptEvent ev = some fn →
      d.status = "OCR_RUNNING" → ev.key ∉ d.pages → d.pages ≠ [] →
      (processRecord st ev).started = st.started ∧
      (processRecord st ev).doc = some { d with
          pages := d.pages ++ [ev.key],
          pagesReceived := (d.pages ++ [ev.key]).length }) ∧
    (∀ st ev fn d, st.doc = some d → acceptEvent ev = some fn →
      (d.status = "AWAITING_PAGES" ∨ d.status = "COMPLETE") →
      ev.key ∉ d.pages → d.pages ≠ [] →
      (processRecord st ev).started = st.started ++ [d.pages ++ [ev.key]]) := by
  refine ⟨?_, ?_, ?_⟩
  · intro st ev fn hdoc hacc
    unfold processRecord
    rw [hacc]
    unfold applyEvent
    rw [hdoc]
    dsimp only
    rw [if_neg (List.not_mem_nil ev.key)]
    simp
  · intro st ev fn d hdoc hacc hst hmem hne
    unfold processRecord
    rw [hacc]
    unfold applyEvent
    rw [hdoc]
    dsimp only
    rw [if_neg hmem]
    have hlp : 0 < d.pages.length := List.length_pos.mpr hne
    have hlen' : (d.pages ++ [ev.key]).length = d.pages.length + 1 := by simp
    have hlen : ¬ (d.pages ++ [ev.key]).length = 1 := by rw [hlen']; omega
    have hnc : ¬ (d.status = "COMPLETE" ∧ (d.pages ++ [ev.key]).length > 1) := by
      rintro ⟨h, -⟩
      rw [hst] at h
      exact absurd h (by decide)
    have hns : ¬ (((d.pages ++ [ev.key]).length = 1 ∧ d.status = "AWAITING_PAGES") ∨
        (d.status = "COMPLETE" ∧ (d.pages ++ [ev.key]).length > 1) ∨
        (d.status = "AWAITING_PAGES" ∧ (d.pages ++ [ev.key]).length > 1)) := by
      rintro (⟨h, -⟩ | h | ⟨h, -⟩)
      · exact hlen h
      · exact hnc h
      · rw [hst] at h; exact absurd h (by decide)
    rw [if_neg hns, if_neg hlen, if_neg hnc, if_neg hlen]
    exact ⟨rfl, rfl⟩
  · intro st ev fn d hdoc hacc hst hmem hne
    unfold processRecord
    rw [hacc]
    unfold applyEvent
    rw [hdoc]
    dsimp only
    rw [if_neg hmem]
    have hlp : 0 < d.pages.length := List.length_pos.mpr hne
    have hlen' : (d.pages ++ [ev.key]).length = d.pages.length + 1 := by simp
    have hgt : (d.pages ++ [ev.key]).length > 1 := by rw [hlen']; omega
    have hs : (((d.pages ++ [ev.key]).length = 1 ∧ d.status = "AWAITING_PAGES") ∨
        (d.status = "COMPLETE" ∧ (d.pages ++ [ev.key]).length > 1) ∨
        (d.status = "AWAITING_PAGES" ∧ (d.pages ++ [ev.key]).length > 1)) := by
      rcases hst with h | h
      · exact Or.inr (Or.inr ⟨h, hgt⟩)
      · exact Or.inr (Or.inl ⟨h, hgt⟩)
    rw [if_pos hs]

/-- C2 amended witness: concrete instantiations of all three clauses of the
start policy. -/
theorem ingest_start_policy_witness :
    ((processRecord { doc := none, started := [] } evPage1).started
      = [["incoming/doc_1.jpg"]]) ∧
    ((processRecord
        { doc := some docAfterPage1, started := [["incoming/doc_1.jpg"]] }
        evPage2).started
      = [["incoming/doc_1.jpg"]]) ∧
    ((processRecord
        { doc := some { docAfterPage1 with status := "COMPLETE" },
          started := [["incoming/doc_1.jpg"]] }
        evPage2).started
      = [["incoming/doc_1.jpg"], ["incoming/doc_1.jpg", "incoming/doc_2.jpg"]]) := by
  refine ⟨?_, ?_, ?_⟩
  · exact (ingest_start_policy.1 _ evPage1 "doc_1.jpg" rfl (by decide)).1
  · exact (ingest_start_policy.2.1 _ evPage2 "doc_2.jpg" docAfterPage1
      rfl (by decide) rfl (by decide) (by decide)).1
  · have h := ingest_start_policy.2.2
      { doc := some { docAfterPage1 with status := "COMPLETE" },
        started := [["incoming/doc_1.jpg"]] }
      evPage2 "doc_2.jpg" { docAfterPage1 with status := "COMPLETE" }
      rfl (by decide) (Or.inr rfl) (by decide) (by decide)
    simpa [docAfterPage1] using h

/-- C6 counterexample: a page whose extension is `tiff` parses fine but is
skipped as unsupported — no document is created, nothing is started,
contradicting "pages with extension tiff or tif are accepted for
processing". -/
theorem ingest_tiff_skipped_cex :
    parseFilename "scan.tiff" = some ("scan", 1, "tiff") ∧
    runIngest [⟨"incoming/scan.tiff", some "image/tiff"⟩]
        = { doc := none, started := [] } := by decide

/-- C6 (amended): the ingest handler accepts a page exactly when its
extension (case-insensitive) is in {jpg, jpeg, png, pdf}; a page with any
other extension — including tiff and tif — is skipped as unsupported and
does not modify the state. -/
theorem ingest_supported_extensions
    (st : IngestState) (ev : IngestEvent) (base : String) (n : Nat)
    (ext : String)
    (hparse : parseFilename (lastComponent ev.key) = some (base, n, ext)) :
    (lowerStr ext ∉ supportedExts → processRecord st ev = st) ∧
    ("incoming/".data.isPrefixOf ev.key.data →
      (∃ ct, ev.contentType = some ct ∧ ct ∈ validMimeTypes) →
      (acceptEvent ev = some (lastComponent ev.key) ↔
        lowerStr ext ∈ supportedExts)) := by
  constructor
  · intro hext
    unfold processRecord
    cases hacc : acceptEvent ev with
    | none => rfl
    | some fn =>
      exfalso
      unfold acceptEvent at hacc
      by_cases hpre : ("incoming/".data.isPrefixOf ev.key.data = true)
      · rw [if_pos hpre] at hacc
        dsimp only at hacc
        rw [hparse] at hacc
        dsimp only at hacc
        rw [if_neg hext] at hacc
        cases hacc
      · rw [if_neg hpre] at hacc
        cases hacc
  · intro hpre hmime
    obtain ⟨ct, hct, hctv⟩ := hmime
    unfold acceptEvent
    rw [if_pos hpre]
    dsimp only
    rw [hparse]
    dsimp only
    constructor
    · intro hacc
      by_contra hext
      rw [if_neg hext] at hacc
      cases hacc
    · intro hext
      rw [if_pos hext, hct]
      dsimp only
      rw [if_pos hctv]

/-- C6 amended witness: a `tiff` upload is skipped; a `JPG` upload (upper
case) passes the extension gate. -/
theorem ingest_supported_extensions_witness :
    (processRecord { doc := none, started := [] }
        ⟨"incoming/scan.tiff", some "image/tiff"⟩
      = { doc := none, started := [] }) ∧
    (acceptEvent ⟨"incoming/scan.JPG", some "image/jpeg"⟩
      = some "scan.JPG") := by
  constructor
  · exact (ingest_supported_extensions { doc := none, started := [] }
      ⟨"incoming/scan.tiff", some "image/tiff"⟩ "scan" 1 "tiff"
      (by decide)).1 (by decide)
  · exact (ingest_supported_extensions { doc := none, started := [] }
      ⟨"incoming/scan.JPG", some "image/jpeg"⟩ "scan" 1 "JPG"
      (by decide)).2 (by decide)
      ⟨"image/jpeg", rfl, by decide⟩ |>.mpr (by decide)

/-! ## OCR handler (`src/lambda/ocr_handler.py`)

One invocation of the OCR Lambda is embedded as a pure function of the
document state (`textract_jobs`, `ocr_text_keys`) and an oracle for the
external Textract calls.  `get_document_text_detection` on a job id is
modelled by `poll` (a fixed function during the invocation);
`detect_document_text` by `syncText`; `start_document_text_detection`
returns ids from the `freshId` supply.  S3 `put_object` calls are recorded
in `puts`. -/

theorem natDigitsGo_fuel {f₁ f₂ n : Nat} (h₁ : n < f₁) (h₂ : n < f₂) :
    natDigitsGo f₁ n = natDigitsGo f₂ n := by
  induction n using Nat.strong_induction_on generalizing f₁ f₂ with
  | _ n ih =>
    match f₁, f₂ with
    | f₁ + 1, f₂ + 1 =>
      unfold natDigitsGo
      by_cases hn : n < 10
      · rw [if_pos hn, if_pos hn]
      · rw [if_neg hn, if_neg hn]
        have hd : n / 10 < n := Nat.div_lt_self (by omega) (by omega)
        rw [@ih (n / 10) hd f₁ f₂ (by omega) (by omega)]

/-- Unfolding rule for `natDigits` in its natural recursive form. -/
theorem natDigits_eq (n : Nat) :
    natDigits n =
      if n < 10 then [digitChar n]
      else natDigits (n / 10) ++ [digitChar (n % 10)] := by
  unfold natDigits
  conv_lhs => rw [natDigitsGo]
  by_cases hn : n < 10
  · rw [if_pos hn, if_pos hn]
  · rw [if_neg hn, if_neg hn]
    have hd : n / 10 < n := Nat.div_lt_self (by omega) (by omega)
    rw [@natDigitsGo_fuel n (n / 10 + 1) (n / 10) hd (Nat.lt_succ_self _)]

/-! ### Lemmas about the OCR step -/

theorem digitChar_inj :
    ∀ d < 10, ∀ e < 10, digitChar d = digitChar e → d = e := by decide

theorem natDigits_ne_nil (n : Nat) : natDigits n ≠ [] := by
  rw [natDigits_eq]
  by_cases hn : n < 10
  · rw [if_pos hn]; simp
  · rw [if_neg hn]; simp

theorem natDigits_inj : ∀ m n : Nat, natDigits m = natDigits n → m = n := by
  intro m
  induction m using Nat.strong_induction_on with
  | _ m ih =>
    intro n h
    rw [natDigits_eq m, natDigits_eq n] at h
    by_cases hm : m < 10 <;> by_cases hn : n < 10
    · rw [if_pos hm, if_pos hn] at h
      exact digitChar_inj m hm n hn (List.singleton_inj.mp h)
    · rw [if_pos hm, if_neg hn] at h
      have := congrArg List.length h
      simp at this
      exact absurd this (natDigits_ne_nil (n / 10))
    · rw [if_neg hm, if_pos hn] at h
      have := congrArg List.length h
      simp at this
      exact absurd this (natDigits_ne_nil (m / 10))
    · rw [if_neg hm, if_neg hn] at h
      obtain ⟨h1, h2⟩ := List.append_inj' h (by simp)
      have hdiv : m / 10 = n / 10 :=
        ih (m / 10) (Nat.div_lt_self (by omega) (by omega)) (n / 10) h1
      have hmod : m % 10 = n % 10 :=
        digitChar_inj _ (Nat.mod_lt _ (by omega)) _ (Nat.mod_lt _ (by omega))
          (List.singleton_inj.mp h2)
      omega

theorem natStr_inj {m n : Nat} (h : natStr m = natStr n) : m = n :=
  natDigits_inj m n (congrArg String.data h)

theorem textKey_inj {docId : String} {m n : Nat}
    (h : textKey docId m = textKey docId n) : m = n := by
  apply natStr_inj
  have hd := congrArg String.data h
  simp only [textKey, String.data_append, List.append_assoc] at hd
  have h1 := List.append_cancel_left hd
  have h2 := List.append_cancel_left h1
  have h3 := List.append_cancel_left h2
  exact String.ext (List.append_cancel_right h3)

theorem textKey_ne_empty (docId : String) (n : Nat) : textKey docId n ≠ "" := by
  intro h
  have hd := congrArg String.data h
  simp only [textKey, String.data_append] at hd
  rw [List.append_eq_nil] at hd
  exact absurd hd.2 (by decide)

theorem lookupJob_setJob (jobs : List (String × String)) (k' v k : String) :
    lookupJob (setJob jobs k' v) k =
      if k' = k then some v else lookupJob jobs k := by
  induction jobs with
  | nil =>
    unfold setJob lookupJob
    rfl
  | cons kv rest ih =>
    obtain ⟨k₀, v₀⟩ := kv
    unfold setJob
    by_cases h1 : k₀ = k'
    · rw [if_pos h1]
      unfold lookupJob
      by_cases h2 : k' = k
      · rw [if_pos h2, if_pos h2]
      · rw [if_neg h2, if_neg h2, if_neg (fun hh => h2 (h1.symm.trans hh))]
    · rw [if_neg h1]
      unfold lookupJob
      by_cases h2 : k₀ = k
      · have h3 : ¬ k' = k := fun hh => h1 (h2.trans hh.symm)
        rw [if_pos h2, if_neg h3, if_pos h2]
      · rw [if_neg h2, ih, if_neg h2]

theorem mem_appendIfAbsent_self (l : List String) (k : String) :
    k ∈ appendIfAbsent l k := by
  unfold appendIfAbsent
  split_ifs with h
  · exact h
  · simp

theorem mem_appendIfAbsent_of_mem (l : List String) (k k' : String)
    (h : k' ∈ l) : k' ∈ appendIfAbsent l k := by
  unfold appendIfAbsent
  split_ifs with hm
  · exact h
  · exact List.mem_append_left _ h

theorem mem_of_mem_appendIfAbsent {l : List String} {k k' : String}
    (h : k' ∈ appendIfAbsent l k) : k' ∈ l ∨ k' = k := by
  unfold appendIfAbsent at h
  split_ifs at h with hm
  · exact Or.inl h
  · rcases List.mem_append.mp h with h | h
    · exact Or.inl h
    · exact Or.inr (List.mem_singleton.mp h)

theorem nodup_appendIfAbsent {l : List String} (k : String)
    (h : l.Nodup) : (appendIfAbsent l k).Nodup := by
  unfold appendIfAbsent
  split_ifs with hm
  · exact h
  · rw [(List.perm_append_singleton k l).nodup_iff, List.nodup_cons]
    exact ⟨hm, h⟩

theorem appendIfAbsent_of_not_mem {l : List String} {k : String}
    (h : k ∉ l) : appendIfAbsent l k = l ++ [k] := by
  unfold appendIfAbsent
  rw [if_neg h]

theorem idxOf_lt_length {l : List String} {x : String} (h : x ∈ l) :
    idxOf l x < l.length := by
  induction l with
  | nil => cases h
  | cons y ys ih =>
    unfold idxOf
    split_ifs with hy
    · simp
    · have hx : x ∈ ys := by
        rcases List.mem_cons.mp h with h | h
        · exact absurd h.symm hy
        · exact h
      simpa using Nat.succ_lt_succ (ih hx)

theorem idxOf_get {l : List String} (hnd : l.Nodup) :
    ∀ (i : Nat) (h : i < l.length), idxOf l (l.get ⟨i, h⟩) = i := by
  induction l with
  | nil => intro i h; simp at h
  | cons y ys ih =>
    intro i h
    rcases List.nodup_cons.mp hnd with ⟨hy, hnd'⟩
    cases i with
    | zero => simp [idxOf]
    | succ j =>
      have hjl : j < ys.length := by simpa using h
      have hget : (y :: ys).get ⟨j + 1, h⟩ = ys.get ⟨j, hjl⟩ := rfl
      rw [hget]
      unfold idxOf
      have hne : ¬ y = ys.get ⟨j, hjl⟩ := by
        intro hy'
        apply hy
        rw [hy']
        exact List.get_mem ys j hjl
      rw [if_neg hne, ih hnd' j hjl]

/-- Shape of `ocrPage` in the multi-page case for a page with a recorded
job (the first block of the loop body). -/
theorem ocrPage_present_succ {docId : String} {pages : List String}
    {env : OcrEnv} {st : OcrState} {p jid t : String}
    (h : lookupJob st.jobs p = some jid) (ht : env.poll jid = .succeeded t) :
    ocrPage docId pages false env st p =
      .ok { st with
        puts := st.puts ++ [(textKey docId (idxOf pages p + 1), t)],
        keys := appendIfAbsent st.keys (textKey docId (idxOf pages p + 1)) } := by
  unfold ocrPage
  rw [h]
  dsimp only
  rw [ht]
  simp only [Bool.false_eq_true, if_false]
  rw [h]

theorem ocrPage_present_inProgress {docId : String} {pages : List String}
    {env : OcrEnv} {st : OcrState} {p jid : String}
    (h : lookupJob st.jobs p = some jid) (ht : env.poll jid = .inProgress) :
    ocrPage docId pages false env st p = .ok st := by
  unfold ocrPage
  rw [h]
  dsimp only
  rw [ht]
  simp only [Bool.false_eq_true, if_false]
  rw [h]

theorem ocrPage_present_invalid {docId : String} {pages : List String}
    {env : OcrEnv} {st : OcrState} {p jid : String}
    (h : lookupJob st.jobs p = some jid) (ht : env.poll jid = .invalidJob) :
    ocrPage docId pages false env st p = .ok st := by
  unfold ocrPage
  rw [h]
  dsimp only
  rw [ht]
  simp only [Bool.false_eq_true, if_false]
  rw [h]

theorem ocrPage_present_failed {docId : String} {pages : List String}
    {env : OcrEnv} {st : OcrState} {p jid m : String}
    (h : lookupJob st.jobs p = some jid) (ht : env.poll jid = .failed m) :
    ocrPage docId pages false env st p =
      .error ("Textract job failed for " ++ p ++ ": " ++ m) := by
  unfold ocrPage
  rw [h]
  dsimp only
  rw [ht]
  simp only [Bool.false_eq_true, if_false]

/-- Shape of `ocrPage` in the multi-page case for a page with no recorded
job: a fresh async job is submitted and recorded. -/
theorem ocrPage_absent {docId : String} {pages : List String}
    {env : OcrEnv} {st : OcrState} {p : String}
    (h : lookupJob st.jobs p = none) :
    ocrPage docId pages false env st p =
      .ok { st with jobs := setJob st.jobs p (env.freshId st.counter),
                    counter := st.counter + 1 } := by
  unfold ocrPage
  rw [h]
  dsimp only
  rw [h]
  simp only [Bool.false_eq_true, if_false]

/-- `ocrPage` (multi-page case) never changes or removes an existing job
binding. -/
theorem ocrPage_ok_preserves_job {docId : String} {pages : List String}
    {env : OcrEnv} {st st' : OcrState} {p : String}
    (h : ocrPage docId pages false env st p = .ok st')
    {k v : String} (hk : lookupJob st.jobs k = some v) :
    lookupJob st'.jobs k = some v := by
  cases hl : lookupJob st.jobs p with
  | some jid =>
    cases hp : env.poll jid with
    | succeeded t =>
      rw [ocrPage_present_succ hl hp] at h
      cases h
      exact hk
    | failed m => rw [ocrPage_present_failed hl hp] at h; cases h
    | inProgress =>
      rw [ocrPage_present_inProgress hl hp] at h
      cases h
      exact hk
    | invalidJob =>
      rw [ocrPage_present_invalid hl hp] at h
      cases h
      exact hk
  | none =>
    rw [ocrPage_absent hl] at h
    cases h
    have hne : p ≠ k := by
      intro he
      rw [he] at hl
      rw [hl] at hk
      cases hk
    show lookupJob (setJob st.jobs p (env.freshId st.counter)) k = some v
    rw [lookupJob_setJob, if_neg hne]
    exact hk

/-- A recorded job that polls `FAILED` makes the whole loop raise. -/
theorem ocrLoop_error_of_failed {docId : String} {pages : List String}
    {env : OcrEnv} :
    ∀ (plist : List String) (st : OcrState) (q jid m : String), q ∈ plist →
      lookupJob st.jobs q = some jid → env.poll jid = .failed m →
      ∃ msg, ocrLoop docId pages false env st plist = .error msg := by
  intro plist
  induction plist with
  | nil => intro st q jid m hq; cases hq
  | cons p ps ih =>
    intro st q jid m hq hjq hpoll
    by_cases hpq : q = p
    · subst hpq
      refine ⟨"Textract job failed for " ++ q ++ ": " ++ m, ?_⟩
      unfold ocrLoop
      rw [ocrPage_present_failed hjq hpoll]
    · have hqs : q ∈ ps := by
        rcases List.mem_cons.mp hq with h | h
        · exact absurd h hpq
        · exact h
      cases hstep : ocrPage docId pages false env st p with
      | error msg =>
        refine ⟨msg, ?_⟩
        unfold ocrLoop
        rw [hstep]
      | ok st' =>
        obtain ⟨msg, hmsg⟩ :=
          ih st' q jid m hqs (ocrPage_ok_preserves_job hstep hjq) hpoll
        refine ⟨msg, ?_⟩
        unfold ocrLoop
        rw [hstep]
        exact hmsg

theorem idxOf_inj_on {l : List String} {x y : String}
    (hx : x ∈ l) (hy : y ∈ l) (h : idxOf l x = idxOf l y) : x = y := by
  induction l with
  | nil => cases hx
  | cons a as ih =>
    unfold idxOf at h
    by_cases hax : a = x <;> by_cases hay : a = y
    · rw [← hax, ← hay]
    · rw [if_pos hax, if_neg hay] at h
      cases h
    · rw [if_neg hax, if_pos hay] at h
      cases h
    · rw [if_neg hax, if_neg hay] at h
      have hx' : x ∈ as := by
        rcases List.mem_cons.mp hx with h' | h'
        · exact absurd h'.symm hax
        · exact h'
      have hy' : y ∈ as := by
        rcases List.mem_cons.mp hy with h' | h'
        · exact absurd h'.symm hay
        · exact h'
      exact ih hx' hy' (Nat.succ_injective h)

/-- `ocrPage` in the single-page case for a page with a recorded job:
a pure no-op (the poll block is skipped, the submit block is guarded). -/
theorem ocrPage_single_present {docId : String} {pages : List String}
    {env : OcrEnv} {st : OcrState} {p jid : String}
    (h : lookupJob st.jobs p = some jid) :
    ocrPage docId pages true env st p = .ok st := by
  unfold ocrPage
  rw [h]
  dsimp only
  rw [if_pos rfl]
  dsimp only
  rw [h]

/-- `ocrPage` in the single-page case for a page with no recorded job:
synchronous Textract, immediate text storage, sentinel recording. -/
theorem ocrPage_single_absent {docId : String} {pages : List String}
    {env : OcrEnv} {st : OcrState} {p : String}
    (h : lookupJob st.jobs p = none) :
    ocrPage docId pages true env st p =
      .ok { st with puts := st.puts ++ [(textKey docId 1, env.syncText p)],
                    keys := appendIfAbsent st.keys (textKey docId 1),
                    jobs := setJob st.jobs p "SYNC_COMPLETE" } := by
  unfold ocrPage
  rw [h]
  dsimp only
  rw [h]
  dsimp only
  rw [if_pos rfl]

/-- Every key `ocrPage` adds to `ocr_text_keys` is the text artifact key of
some page index. -/
theorem ocrPage_keys_shape {docId : String} {pages : List String}
    {single : Bool} {env : OcrEnv} {st st' : OcrState} {p : String}
    (hp : p ∈ pages)
    (h : ocrPage docId pages single env st p = .ok st') :
    ∀ k ∈ st'.keys, k ∈ st.keys ∨
      ∃ i, i < pages.length ∧ k = textKey docId (i + 1) := by
  have hlen : 0 < pages.length := List.length_pos.mpr (List.ne_nil_of_mem hp)
  cases hsingle : single
  · cases hl : lookupJob st.jobs p with
    | some jid =>
      cases hpoll : env.poll jid with
      | succeeded t =>
        rw [hsingle] at h
        rw [ocrPage_present_succ hl hpoll] at h
        cases h
        intro k hk
        rcases mem_of_mem_appendIfAbsent hk with hk' | hk'
        · exact Or.inl hk'
        · exact Or.inr ⟨idxOf pages p, idxOf_lt_length hp, hk'⟩
      | failed m =>
        rw [hsingle] at h
        rw [ocrPage_present_failed hl hpoll] at h
        cases h
      | inProgress =>
        rw [hsingle] at h
        rw [ocrPage_present_inProgress hl hpoll] at h
        cases h
        intro k hk
        exact Or.inl hk
      | invalidJob =>
        rw [hsingle] at h
        rw [ocrPage_present_invalid hl hpoll] at h
        cases h
        intro k hk
        exact Or.inl hk
    | none =>
      rw [hsingle] at h
      rw [ocrPage_absent hl] at h
      cases h
      intro k hk
      exact Or.inl hk
  · cases hl : lookupJob st.jobs p with
    | some jid =>
      rw [hsingle] at h
      rw [ocrPage_single_present hl] at h
      cases h
      intro k hk
      exact Or.inl hk
    | none =>
      rw [hsingle] at h
      rw [ocrPage_single_absent hl] at h
      cases h
      intro k hk
      rcases mem_of_mem_appendIfAbsent hk with hk' | hk'
      · exact Or.inl hk'
      · exact Or.inr ⟨0, hlen, hk'⟩

/-- Every key the main loop adds to `ocr_text_keys` is the text artifact
key of some page index. -/
theorem ocrLoop_keys_shape {docId : String} {pages : List String}
    {single : Bool} {env : OcrEnv} :
    ∀ (plist : List String) (st st' : OcrState),
      (∀ p ∈ plist, p ∈ pages) →
      ocrLoop docId pages single env st plist = .ok st' →
      ∀ k ∈ st'.keys, k ∈ st.keys ∨
        ∃ i, i < pages.length ∧ k = textKey docId (i + 1) := by
  intro plist
  induction plist with
  | nil =>
    intro st st' _ h k hk
    cases h
    exact Or.inl hk
  | cons p ps ih =>
    intro st st' hsub h k hk
    unfold ocrLoop at h
    cases hstep : ocrPage docId pages single env st p with
    | error msg => rw [hstep] at h; cases h
    | ok st₁ =>
      rw [hstep] at h
      dsimp only at h
      rcases ih st₁ st' (fun q hq => hsub q (List.mem_cons_of_mem p hq)) h k hk
        with hk' | hk'
      · exact ocrPage_keys_shape (hsub p (List.mem_cons_self p ps)) hstep k hk'
      · exact Or.inr hk'

/-- When every page of `plist` has a recorded job whose poll is not
`FAILED`, the multi-page loop succeeds, leaves `textract_jobs` and the
fresh-id counter unchanged, and grows `ocr_text_keys` exactly by the
artifact keys of the pages whose jobs poll `SUCCEEDED`. -/
theorem ocrLoop_present_ok {docId : String} {pages : List String}
    {env : OcrEnv} :
    ∀ (plist : List String) (st : OcrState),
      (∀ p ∈ plist, ∃ jid, lookupJob st.jobs p = some jid ∧
        ∀ m, env.poll jid ≠ .failed m) →
      ∃ st', ocrLoop docId pages false env st plist = .ok st' ∧
        st'.jobs = st.jobs ∧ st'.counter = st.counter ∧
        (∀ k, k ∈ st.keys → k ∈ st'.keys) ∧
        (∀ k, k ∈ st'.keys → k ∈ st.keys ∨
          ∃ p ∈ plist, k = textKey docId (idxOf pages p + 1)) ∧
        (st.keys.Nodup → st'.keys.Nodup) ∧
        (∀ p ∈ plist, ∀ jid t, lookupJob st.jobs p = some jid →
          env.poll jid = .succeeded t →
          textKey docId (idxOf pages p + 1) ∈ st'.keys) := by
  intro plist
  induction plist with
  | nil =>
    intro st _
    refine ⟨st, rfl, rfl, rfl, fun k hk => hk, fun k hk => Or.inl hk,
      fun h => h, ?_⟩
    intro p hp
    cases hp
  | cons p ps ih =>
    intro st hp
    obtain ⟨jid, hjid, hnf⟩ := hp p (List.mem_cons_self p ps)
    cases hpoll : env.poll jid with
    | failed m => exact absurd hpoll (hnf m)
    | succeeded t =>
      have hstep := @ocrPage_present_succ docId pages env st p jid t hjid hpoll
      obtain ⟨st', hloop, hjobs, hctr, hmono, hback, hnd, hsucc⟩ :=
        ih { st with
              puts := st.puts ++ [(textKey docId (idxOf pages p + 1), t)],
              keys := appendIfAbsent st.keys (textKey docId (idxOf pages p + 1)) }
          (fun q hq => hp q (List.mem_cons_of_mem p hq))
      refine ⟨st', ?_, hjobs, hctr, ?_, ?_, ?_, ?_⟩
      · unfold ocrLoop
        rw [hstep]
        exact hloop
      · intro k hk
        exact hmono k (mem_appendIfAbsent_of_mem _ _ _ hk)
      · intro k hk
        rcases hback k hk with hk' | ⟨q, hq, hkq⟩
        · rcases mem_of_mem_appendIfAbsent hk' with h' | h'
          · exact Or.inl h'
          · exact Or.inr ⟨p, List.mem_cons_self p ps, h'⟩
        · exact Or.inr ⟨q, List.mem_cons_of_mem p hq, hkq⟩
      · intro hndk
        exact hnd (nodup_appendIfAbsent _ hndk)
      · intro q hq jid' t' hlq hps
        rcases List.mem_cons.mp hq with hq' | hq'
        · subst hq'
          apply hmono
          exact mem_appendIfAbsent_self st.keys _
        · exact hsucc q hq' jid' t' hlq hps
    | inProgress =>
      have hstep := @ocrPage_present_inProgress docId pages env st p jid hjid hpoll
      obtain ⟨st', hloop, hjobs, hctr, hmono, hback, hnd, hsucc⟩ :=
        ih st (fun q hq => hp q (List.mem_cons_of_mem p hq))
      refine ⟨st', ?_, hjobs, hctr, hmono, ?_, hnd, ?_⟩
      · unfold ocrLoop
        rw [hstep]
        exact hloop
      · intro k hk
        rcases hback k hk with hk' | ⟨q, hq, hkq⟩
        · exact Or.inl hk'
        · exact Or.inr ⟨q, List.mem_cons_of_mem p hq, hkq⟩
      · intro q hq jid' t' hlq hps
        rcases List.mem_cons.mp hq with hq' | hq'
        · subst hq'
          rw [hjid] at hlq
          cases hlq
          rw [hpoll] at hps
          cases hps
        · exact hsucc q hq' jid' t' hlq hps
    | invalidJob =>
      have hstep := @ocrPage_present_invalid docId pages env st p jid hjid hpoll
      obtain ⟨st', hloop, hjobs, hctr, hmono, hback, hnd, hsucc⟩ :=
        ih st (fun q hq => hp q (List.mem_cons_of_mem p hq))
      refine ⟨st', ?_, hjobs, hctr, hmono, ?_, hnd, ?_⟩
      · unfold ocrLoop
        rw [hstep]
        exact hloop
      · intro k hk
        rcases hback k hk with hk' | ⟨q, hq, hkq⟩
        · exact Or.inl hk'
        · exact Or.inr ⟨q, List.mem_cons_of_mem p hq, hkq⟩
      · intro q hq jid' t' hlq hps
        rcases List.mem_cons.mp hq with hq' | hq'
        · subst hq'
          rw [hjid] at hlq
          cases hlq
          rw [hpoll] at hps
          cases hps
        · exact hsucc q hq' jid' t' hlq hps

/-- When every page of a duplicate-free `plist` still lacks its text key
and every job polls `SUCCEEDED`, the loop appends the artifact keys in
page order. -/
theorem ocrLoop_align {docId : String} {pages : List String} {env : OcrEnv} :
    ∀ (plist : List String) (st : OcrState), plist.Nodup →
      (∀ p ∈ plist, ∃ jid t, lookupJob st.jobs p = some jid ∧
        env.poll jid = .succeeded t) →
      (∀ p ∈ plist, textKey docId (idxOf pages p + 1) ∉ st.keys) →
      (∀ p ∈ plist, ∀ q ∈ plist, p ≠ q →
        textKey docId (idxOf pages p + 1) ≠ textKey docId (idxOf pages q + 1)) →
      ∃ st', ocrLoop docId pages false env st plist = .ok st' ∧
        st'.jobs = st.jobs ∧
        st'.keys = st.keys ++
          plist.map (fun p => textKey docId (idxOf pages p + 1)) := by
  intro plist
  induction plist with
  | nil =>
    intro st _ _ _ _
    exact ⟨st, rfl, rfl, by simp⟩
  | cons p ps ih =>
    intro st hnd hjob hnotin hdist
    obtain ⟨hp, hnd'⟩ := List.nodup_cons.mp hnd
    obtain ⟨jid, t, hjid, hpoll⟩ := hjob p (List.mem_cons_self p ps)
    have hstep := @ocrPage_present_succ docId pages env st p jid t hjid hpoll
    have hk₀ := appendIfAbsent_of_not_mem (hnotin p (List.mem_cons_self p ps))
    obtain ⟨st', hloop, hjobs, hkeys⟩ :=
      ih { st with
            puts := st.puts ++ [(textKey docId (idxOf pages p + 1), t)],
            keys := appendIfAbsent st.keys (textKey docId (idxOf pages p + 1)) }
        hnd'
        (fun q hq => hjob q (List.mem_cons_of_mem p hq))
        (by
          intro q hq
          show textKey docId (idxOf pages q + 1) ∉
            appendIfAbsent st.keys (textKey docId (idxOf pages p + 1))
          rw [hk₀]
          intro hmem
          rcases List.mem_append.mp hmem with h' | h'
          · exact hnotin q (List.mem_cons_of_mem p hq) h'
          · have hpq : p ≠ q := fun he => hp (he ▸ hq)
            exact hdist p (List.mem_cons_self p ps) q (List.mem_cons_of_mem p hq)
              hpq (List.mem_singleton.mp h').symm)
        (fun a ha b hb hab => hdist a (List.mem_cons_of_mem p ha)
          b (List.mem_cons_of_mem p hb) hab)
    refine ⟨st', ?_, hjobs, ?_⟩
    · unfold ocrLoop
      rw [hstep]
      exact hloop
    · rw [hkeys]
      show appendIfAbsent st.keys (textKey docId (idxOf pages p + 1)) ++ _ = _
      rw [hk₀, List.append_assoc]
      rfl

/-- For a duplicate-free page list, indexing the artifact keys by `idxOf`
enumerates `text_page_1 … text_page_n` in order. -/
theorem map_idxOf_textKey (docId : String) {pages : List String}
    (hnd : pages.Nodup) :
    pages.map (fun p => textKey docId (idxOf pages p + 1)) =
      (List.range pages.length).map (fun i => textKey docId (i + 1)) := by
  apply List.ext_get
  · simp
  · intro i h1 h2
    have h1' : i < pages.length := by simpa using h1
    have h2' : i < (List.range pages.length).length := by simpa using h2
    rw [List.get_map, List.get_map]
    have hr : (List.range pages.length).get ⟨i, h2'⟩ = i := by
      simp [List.get_range]
    simp only [hr]
    rw [idxOf_get hnd i h1']


/-! ### Concrete OCR environments used by counterexamples and witnesses -/

/-- C3 counterexample: the handler's OCR-complete report is not equivalent
to `len(ocr_text_keys) == len(pages)` with non-empty entries.  First
conjunct: with both text keys already stored but page 1's job handle
expired, the handler reports still-in-progress although
`len(ocr_text_keys) == len(pages)` and every entry is non-empty.  Second
conjunct: when a recorded job polls `FAILED` the handler raises an error
(marking the document FAILED) instead of reporting still-in-progress. -/
theorem ocr_complete_iff_keys_cex :
    (runOcrHandler "d" ["p1", "p2"] envExpired [("p1", "J1"), ("p2", "J2")]
        [textKey "d" 1, textKey "d" 2]
      = .stillInProgress
          { jobs := [("p1", "J1"), ("p2", "J2")],
            keys := [textKey "d" 1, textKey "d" 2],
            puts := [(textKey "d" 2, "T2")], counter := 0 } ∧
      ([textKey "d" 1, textKey "d" 2] : List String).length
        = (["p1", "p2"] : List String).length ∧
      "" ∉ [textKey "d" 1, textKey "d" 2]) ∧
    runOcrHandler "d" ["p1", "p2"] envFailedJob
        [("p1", "J1"), ("p2", "J2")] []
      = .error "Textract job failed for p1: boom" := by
  decide

/-- C3 (amended): the OCR handler reports complete iff every page has the
sync sentinel (single-page) or a recorded async job that polls `SUCCEEDED`
at the completion re-check (multi-page).  A recorded job that polls
`FAILED` makes the handler raise (the document is marked FAILED) rather
than report still-in-progress.  When every recorded job polls `SUCCEEDED`
(multi-page, distinct pages, previously stored keys well-formed), the
handler reports complete and then `len(ocr_text_keys) = len(pages)` with
every entry non-empty. -/
theorem ocr_completion_policy
    (docId : String) (pages : List String) (env : OcrEnv)
    (jobs₀ : List (String × String)) (keys₀ : List String) :
    (∀ st, runOcrHandler docId pages env jobs₀ keys₀ = .complete st →
      ∀ p ∈ pages, ∃ jid, lookupJob st.jobs p = some jid ∧
        (pages.length = 1 → jid = "SYNC_COMPLETE") ∧
        (pages.length ≠ 1 → ∃ t, env.poll jid = .succeeded t)) ∧
    (2 ≤ pages.length →
      (∃ p ∈ pages, ∃ jid m, lookupJob jobs₀ p = some jid ∧
        env.poll jid = .failed m) →
      ∃ msg, runOcrHandler docId pages env jobs₀ keys₀ = .error msg) ∧
    (2 ≤ pages.length → pages.Nodup →
      (∀ p ∈ pages, ∃ jid t, lookupJob jobs₀ p = some jid ∧
        env.poll jid = .succeeded t) →
      keys₀.Nodup →
      (∀ k ∈ keys₀, ∃ i, i < pages.length ∧ k = textKey docId (i + 1)) →
      ∃ st, runOcrHandler docId pages env jobs₀ keys₀ = .complete st ∧
        st.keys.length = pages.length ∧ ∀ k ∈ st.keys, k ≠ "") := by
  refine ⟨?_, ?_, ?_⟩
  · intro st hrun p hp
    unfold runOcrHandler at hrun
    by_cases hemp : pages.isEmpty = true
    · rw [if_pos hemp] at hrun
      cases hrun
    · rw [if_neg hemp] at hrun
      dsimp only at hrun
      cases hloop : ocrLoop docId pages (pages.length == 1) env
          { jobs := jobs₀, keys := keys₀, puts := [], counter := 0 } pages with
      | error m => rw [hloop] at hrun; cases hrun
      | ok st₁ =>
        rw [hloop] at hrun
        dsimp only at hrun
        by_cases hall : pages.all
            (fun q => pageComplete (pages.length == 1) env.poll st₁.jobs q) = true
        · rw [if_pos hall] at hrun
          cases hrun
          have hpc := List.all_eq_true.mp hall p hp
          unfold pageComplete at hpc
          cases hl : lookupJob st.jobs p with
          | none => rw [hl] at hpc; cases hpc
          | some jid =>
            rw [hl] at hpc
            dsimp only at hpc
            refine ⟨jid, rfl, ?_, ?_⟩
            · intro hlen1
              have hb : (pages.length == 1) = true := by
                rw [hlen1]
                rfl
              rw [hb, if_pos rfl] at hpc
              exact of_decide_eq_true hpc
            · intro hlen1
              have hb : (pages.length == 1) = false := by
                rw [beq_eq_false_iff_ne]
                exact hlen1
              rw [hb] at hpc
              simp only [Bool.false_eq_true, if_false] at hpc
              cases hpoll : env.poll jid with
              | succeeded t => exact ⟨t, rfl⟩
              | failed m => rw [hpoll] at hpc; simp at hpc
              | inProgress => rw [hpoll] at hpc; simp at hpc
              | invalidJob => rw [hpoll] at hpc; simp at hpc
        · rw [if_neg hall] at hrun
          cases hrun
  · intro hlen hex
    obtain ⟨p, hp, jid, m, hjq, hpoll⟩ := hex
    have hemp : pages.isEmpty = false := by
      cases pages with
      | nil => simp at hlen
      | cons a as => rfl
    have hb : (pages.length == 1) = false := by
      rw [beq_eq_false_iff_ne]
      omega
    obtain ⟨msg, hmsg⟩ := ocrLoop_error_of_failed pages
      { jobs := jobs₀, keys := keys₀, puts := [], counter := 0 }
      p jid m hp hjq hpoll
    refine ⟨msg, ?_⟩
    unfold runOcrHandler
    rw [hemp]
    simp only [Bool.false_eq_true, if_false]
    rw [hb, hmsg]
  · intro hlen hndp hsuc hndk hvalid
    have hemp : pages.isEmpty = false := by
      cases pages with
      | nil => simp at hlen
      | cons a as => rfl
    have hb : (pages.length == 1) = false := by
      rw [beq_eq_false_iff_ne]
      omega
    obtain ⟨st', hloop, hjobs, hctr, hmono, hback, hnd, hsucc⟩ :=
      ocrLoop_present_ok pages
        { jobs := jobs₀, keys := keys₀, puts := [], counter := 0 }
        (by
          intro p hp
          obtain ⟨jid, t, hjq, hpoll⟩ := hsuc p hp
          exact ⟨jid, hjq, fun m hm => by rw [hpoll] at hm; cases hm⟩)
    have hall : pages.all (fun q => pageComplete false env.poll st'.jobs q)
        = true := by
      rw [List.all_eq_true]
      intro p hp
      obtain ⟨jid, t, hjq, hpoll⟩ := hsuc p hp
      unfold pageComplete
      rw [hjobs]
      show (match lookupJob jobs₀ p with
        | none => false
        | some jid =>
          if false then decide (jid = "SYNC_COMPLETE")
          else
            match env.poll jid with
            | .succeeded _ => true
            | _ => false) = true
      rw [hjq]
      dsimp only
      simp only [Bool.false_eq_true, if_false]
      rw [hpoll]
    refine ⟨st', ?_, ?_, ?_⟩
    · unfold runOcrHandler
      rw [hemp]
      simp only [Bool.false_eq_true, if_false]
      rw [hb, hloop]
      dsimp only
      rw [if_pos hall]
    · have hsub1 : ∀ k ∈ st'.keys,
          k ∈ (List.range pages.length).map (fun i => textKey docId (i + 1)) := by
        intro k hk
        rcases hback k hk with hk' | ⟨p, hp, hkp⟩
        · obtain ⟨i, hi, hki⟩ := hvalid k hk'
          exact List.mem_map.mpr ⟨i, List.mem_range.mpr hi, hki.symm⟩
        · exact List.mem_map.mpr ⟨idxOf pages p, List.mem_range.mpr
            (idxOf_lt_length hp), hkp.symm⟩
      have hsub2 : ∀ k ∈ (List.range pages.length).map
          (fun i => textKey docId (i + 1)), k ∈ st'.keys := by
        intro k hk
        obtain ⟨i, hir, hki⟩ := List.mem_map.mp hk
        have hi := List.mem_range.mp hir
        have hp : pages.get ⟨i, hi⟩ ∈ pages := List.get_mem pages i hi
        obtain ⟨jid, t, hjq, hpoll⟩ := hsuc _ hp
        have hmem := hsucc _ hp jid t hjq hpoll
        rw [idxOf_get hndp i hi] at hmem
        rw [← hki]
        exact hmem
      have hndk' : st'.keys.Nodup := hnd hndk
      have hinj : Function.Injective (fun i => textKey docId (i + 1)) := by
        intro a b hab
        have := textKey_inj hab
        omega
      have hndv : ((List.range pages.length).map
          (fun i => textKey docId (i + 1))).Nodup :=
        (List.nodup_range pages.length).map hinj
      have hperm := List.perm_of_nodup_nodup_toFinset_eq hndk' hndv (by
        ext x
        simp only [List.mem_toFinset]
        exact ⟨hsub1 x, hsub2 x⟩)
      have hl := hperm.length_eq
      simpa using hl
    · intro k hk
      rcases hback k hk with hk' | ⟨p, hp, hkp⟩
      · obtain ⟨i, hi, hki⟩ := hvalid k hk'
        rw [hki]
        exact textKey_ne_empty docId (i + 1)
      · rw [hkp]
        exact textKey_ne_empty docId _

/-- C3 amended witness: a two-page document whose two recorded jobs both
poll `SUCCEEDED` reaches `AGGREGATING` with both text keys stored. -/
theorem ocr_completion_policy_witness :
    ∃ st, runOcrHandler "d" ["p1", "p2"] envAllSucceed
        [("p1", "J1"), ("p2", "J2")] [] = .complete st ∧
      st.keys.length = (["p1", "p2"] : List String).length ∧
      ∀ k ∈ st.keys, k ≠ "" := by
  apply (ocr_completion_policy "d" ["p1", "p2"] envAllSucceed
    [("p1", "J1"), ("p2", "J2")] []).2.2
  · decide
  · decide
  · intro p hp
    rcases (by simpa using hp : p = "p1" ∨ p = "p2") with rfl | rfl
    · exact ⟨"J1", "T1", by decide, by decide⟩
    · exact ⟨"J2", "T2", by decide, by decide⟩
  · decide
  · intro k hk
    exact absurd hk (List.not_mem_nil k)

/-- C4 counterexample: `ocr_text_keys` is appended in completion order, not
page order.  Invocation one (page 2's job finishes first) stores
`text_page_2.txt` as entry 0; invocation two (page 1's job finishes)
appends `text_page_1.txt` after it, so `ocr_text_keys[0]` is not the
artifact of `pages[0]`. -/
theorem ocr_keys_not_index_aligned_cex :
    runOcrHandler "d" ["p1", "p2"] envPartial [("p1", "J1"), ("p2", "J2")] []
      = .stillInProgress ocrStA ∧
    runOcrHandler "d" ["p1", "p2"] envAllSucceed ocrStA.jobs ocrStA.keys
      = .complete
          { jobs := [("p1", "J1"), ("p2", "J2")],
            keys := ["staging/d/text_page_2.txt", "staging/d/text_page_1.txt"],
            puts := [("staging/d/text_page_1.txt", "T1"),
                     ("staging/d/text_page_2.txt", "T2")], counter := 0 } ∧
    (["staging/d/text_page_2.txt", "staging/d/text_page_1.txt"].get? 0
      ≠ some (textKey "d" (0 + 1))) := by
  decide

/-- C4 (amended): every entry of `ocr_text_keys` is the artifact key
`staging/{docId}/text_page_{i+1}.txt` of some page index `i < len(pages)`
(the page binding is carried by the key NAME); list position is completion
order, and only when all pages succeed within a single invocation starting
from empty `ocr_text_keys` is the list exactly
`[text_page_1, …, text_page_n]` in page order. -/
theorem ocr_text_keys_shape_and_order
    (docId : String) (pages : List String) (env : OcrEnv)
    (jobs₀ : List (String × String)) (keys₀ : List String) :
    ((∀ k ∈ keys₀, ∃ i, i < pages.length ∧ k = textKey docId (i + 1)) →
      ∀ st, (runOcrHandler docId pages env jobs₀ keys₀ = .complete st ∨
        runOcrHandler docId pages env jobs₀ keys₀ = .stillInProgress st) →
      ∀ k ∈ st.keys, ∃ i, i < pages.length ∧ k = textKey docId (i + 1)) ∧
    (2 ≤ pages.length → pages.Nodup →
      (∀ p ∈ pages, ∃ jid t, lookupJob jobs₀ p = some jid ∧
        env.poll jid = .succeeded t) →
      keys₀ = [] →
      ∃ st, runOcrHandler docId pages env jobs₀ keys₀ = .complete st ∧
        st.keys = (List.range pages.length).map
          (fun i => textKey docId (i + 1))) := by
  constructor
  · intro hvalid st hrun k hk
    unfold runOcrHandler at hrun
    by_cases hemp : pages.isEmpty = true
    · rw [if_pos hemp] at hrun
      rcases hrun with h | h <;> cases h
    · rw [if_neg hemp] at hrun
      dsimp only at hrun
      cases hloop : ocrLoop docId pages (pages.length == 1) env
          { jobs := jobs₀, keys := keys₀, puts := [], counter := 0 } pages with
      | error m =>
        rw [hloop] at hrun
        rcases hrun with h | h <;> cases h
      | ok st₁ =>
        rw [hloop] at hrun
        dsimp only at hrun
        have hst : st = st₁ := by
          by_cases hall : pages.all
              (fun q => pageComplete (pages.length == 1) env.poll st₁.jobs q)
              = true
          · rw [if_pos hall] at hrun
            rcases hrun with h | h <;> cases h <;> rfl
          · rw [if_neg hall] at hrun
            rcases hrun with h | h <;> cases h <;> rfl
        subst hst
        rcases ocrLoop_keys_shape pages
            { jobs := jobs₀, keys := keys₀, puts := [], counter := 0 } st
            (fun q hq => hq) hloop k hk with hk' | hk'
        · exact hvalid k hk'
        · exact hk'
  · intro hlen hndp hsuc hkeys₀
    subst hkeys₀
    have hemp : pages.isEmpty = false := by
      cases pages with
      | nil => simp at hlen
      | cons a as => rfl
    have hb : (pages.length == 1) = false := by
      rw [beq_eq_false_iff_ne]
      omega
    have hdist : ∀ p ∈ pages, ∀ q ∈ pages, p ≠ q →
        textKey docId (idxOf pages p + 1) ≠ textKey docId (idxOf pages q + 1) := by
      intro p hp q hq hpq he
      have := textKey_inj he
      exact hpq (idxOf_inj_on hp hq (by omega))
    obtain ⟨st', hloop, hjobs, hkeys⟩ :=
      ocrLoop_align pages
        { jobs := jobs₀, keys := [], puts := [], counter := 0 }
        hndp
        (fun p hp => hsuc p hp)
        (fun p _ => List.not_mem_nil _)
        hdist
    have hall : pages.all (fun q => pageComplete false env.poll st'.jobs q)
        = true := by
      rw [List.all_eq_true]
      intro p hp
      obtain ⟨jid, t, hjq, hpoll⟩ := hsuc p hp
      unfold pageComplete
      rw [hjobs]
      show (match lookupJob jobs₀ p with
        | none => false
        | some jid =>
          if false then decide (jid = "SYNC_COMPLETE")
          else
            match env.poll jid with
            | .succeeded _ => true
            | _ => false) = true
      rw [hjq]
      dsimp only
      simp only [Bool.false_eq_true, if_false]
      rw [hpoll]
    refine ⟨st', ?_, ?_⟩
    · unfold runOcrHandler
      rw [hemp]
      simp only [Bool.false_eq_true, if_false]
      rw [hb, hloop]
      dsimp only
      rw [if_pos hall]
    · rw [hkeys]
      show [] ++ pages.map (fun p => textKey docId (idxOf pages p + 1)) = _
      rw [List.nil_append]
      exact map_idxOf_textKey docId hndp

/-- C4 amended witness: with both jobs succeeding in one invocation from an
empty key list, the keys come out exactly in page order. -/
theorem ocr_text_keys_shape_and_order_witness :
    ∃ st, runOcrHandler "d" ["p1", "p2"] envAllSucceed
        [("p1", "J1"), ("p2", "J2")] [] = .complete st ∧
      st.keys = (List.range 2).map (fun i => textKey "d" (i + 1)) := by
  apply (ocr_text_keys_shape_and_order "d" ["p1", "p2"] envAllSucceed
    [("p1", "J1"), ("p2", "J2")] []).2
  · decide
  · decide
  · intro p hp
    rcases (by simpa using hp : p = "p1" ∨ p = "p2") with rfl | rfl
    · exact ⟨"J1", "T1", by decide, by decide⟩
    · exact ⟨"J2", "T2", by decide, by decide⟩
  · rfl

/-- C5: when polling page 1's recorded job raises
`InvalidJobIdException`, the handler swallows the exception but — because
the stale handle is still present in `textract_jobs` — the resubmission
branch (`if page_key not in textract_jobs`) never runs: the returned state
carries the unchanged job map, no fresh job id was consumed
(`counter = 0`), nothing was stored, and the handler reports
still-in-progress, leaving the page permanently stuck. -/
theorem ocr_invalid_job_not_resubmitted :
    runOcrHandler "d" ["p1", "p2"] envInvalidJob
        [("p1", "J1"), ("p2", "J2")] []
      = .stillInProgress
          { jobs := [("p1", "J1"), ("p2", "J2")], keys := [], puts := [],
            counter := 0 } := by
  decide

/-! ## Aggregator (`src/lambda/aggregator_handler.py`)

The aggregation loop (lines 36–44): `combined_text` accumulates
`f"--- Page {i+1} ---\n{text_content}\n\n"` for each text key in order,
where `text_content` is the S3 object read for that key (modelled by the
`read` oracle). -/

theorem str_append_assoc (a b c : String) : a ++ b ++ c = a ++ (b ++ c) :=
  String.ext (by simp [String.data_append])

theorem str_append_empty (a : String) : a ++ "" = a :=
  String.ext (by simp [String.data_append])

theorem aggAux_eq (read : String → String) :
    ∀ (keys : List String) (i : Nat) (acc : String),
      aggAux read i acc keys = acc ++ specAggregate (i + 1) (keys.map read) := by
  intro keys
  induction keys with
  | nil =>
    intro i acc
    show acc = acc ++ specAggregate (i + 1) []
    rw [show specAggregate (i + 1) [] = "" from rfl, str_append_empty]
  | cons k ks ih =>
    intro i acc
    show aggAux read (i + 1) (acc ++ pageChunk (i + 1) (read k)) ks = _
    rw [ih (i + 1) (acc ++ pageChunk (i + 1) (read k)), str_append_assoc]
    rfl

/-- C7: For every list of `ocr_text_keys`, the aggregated artifact
concatenates, in list order, the header `--- Page N ---` (N counting
from 1) followed by a newline, the page's text, and a blank line; for two
pages with texts "A" and "B" the output is exactly
`--- Page 1 ---\nA\n\n--- Page 2 ---\nB\n\n`. -/
theorem aggregator_output_format :
    (∀ (read : String → String) (keys : List String),
      aggregate read keys = specAggregate 1 (keys.map read)) ∧
    aggregate (fun k => if k = "k1" then "A" else "B") ["k1", "k2"]
      = "--- Page 1 ---\nA\n\n--- Page 2 ---\nB\n\n" := by
  constructor
  · intro read keys
    unfold aggregate
    rw [aggAux_eq]
    exact String.ext (by simp [String.data_append])
  · decide

/-- C8: the painted redaction rectangle equals the normalized region
converted to pixel coordinates, expanded by the fixed 8-pixel padding on
every side, and clamped to `[0,W] × [0,H]`; for the region
`{left: 0.1, top: 0.1, width: 0.2, height: 0.05}` on a 1000×1000 image it
is `(92,92)–(308,158)`. -/
theorem redaction_rect_spec (bbox : BBox) (W H : ℕ)
    (h1 : 0 ≤ bbox.left) (h2 : 0 ≤ bbox.top)
    (h3 : 0 ≤ bbox.width) (h4 : 0 ≤ bbox.height)
    (h5 : bbox.left + bbox.width ≤ 1) (h6 : bbox.top + bbox.height ≤ 1) :
    redactRect bbox W H = clampRect W H (padRect 8 (toPixelRect bbox W H)) ∧
    redactRect ⟨1/10, 1/10, 2/10, 1/20⟩ 1000 1000
      = ⟨92, 92, 308, 158⟩ := by
  have key : ∀ (q : ℚ) (n : ℕ), 0 ≤ q → q ≤ 1 →
      0 ≤ pyInt (q * n) ∧ pyInt (q * n) ≤ (n : ℤ) := by
    intro q n hq0 hq1
    have hn0 : (0 : ℚ) ≤ (n : ℚ) := by positivity
    have hqn0 : (0 : ℚ) ≤ q * n := mul_nonneg hq0 hn0
    have hpy : pyInt (q * n) = ⌊q * (n : ℚ)⌋ := if_neg (not_lt.mpr hqn0)
    constructor
    · rw [hpy]
      exact Int.le_floor.mpr (by exact_mod_cast hqn0)
    · rw [hpy]
      calc ⌊q * (n : ℚ)⌋ ≤ ⌊((n : ℕ) : ℚ)⌋ := by
            apply Int.floor_mono
            calc q * (n : ℚ) ≤ 1 * (n : ℚ) :=
                  mul_le_mul_of_nonneg_right hq1 hn0
              _ = (n : ℚ) := one_mul _
        _ = (n : ℤ) := Int.floor_natCast n
  constructor
  · have hbl1 : bbox.left ≤ 1 := le_trans (le_add_of_nonneg_right h3) h5
    have hbt1 : bbox.top ≤ 1 := le_trans (le_add_of_nonneg_right h4) h6
    have hl := key bbox.left W h1 hbl1
    have ht := key bbox.top H h2 hbt1
    have hr := key (bbox.left + bbox.width) W (by positivity) h5
    have hb := key (bbox.top + bbox.height) H (by positivity) h6
    unfold redactRect clampRect padRect toPixelRect
    dsimp only
    simp only [PixelRect.mk.injEq]
    refine ⟨?_, ?_, ?_, ?_⟩
    · rw [min_eq_right (by omega : pyInt (bbox.left * W) - 8 ≤ (W : ℤ))]
    · rw [min_eq_right (by omega : pyInt (bbox.top * H) - 8 ≤ (H : ℤ))]
    · rw [max_eq_right (by omega :
        (0 : ℤ) ≤ min (W : ℤ) (pyInt ((bbox.left + bbox.width) * W) + 8))]
    · rw [max_eq_right (by omega :
        (0 : ℤ) ≤ min (H : ℤ) (pyInt ((bbox.top + bbox.height) * H) + 8))]
  · have e1 : pyInt ((1 : ℚ)/10 * (1000 : ℕ)) = 100 := by
      norm_num [pyInt]
    have e2 : pyInt (((1 : ℚ)/10 + 2/10) * (1000 : ℕ)) = 300 := by
      norm_num [pyInt]
    have e3 : pyInt (((1 : ℚ)/10 + 1/20) * (1000 : ℕ)) = 150 := by
      norm_num [pyInt]
    unfold redactRect
    dsimp only
    rw [e1, e2, e3]
    rfl

/-- C8 witness: the theorem applied at the spec's concrete region and
image size. -/
theorem redaction_rect_spec_witness :
    redactRect ⟨1/10, 1/10, 2/10, 1/20⟩ 1000 1000
      = clampRect 1000 1000
          (padRect 8 (toPixelRect ⟨1/10, 1/10, 2/10, 1/20⟩ 1000 1000)) ∧
    redactRect ⟨1/10, 1/10, 2/10, 1/20⟩ 1000 1000 = ⟨92, 92, 308, 158⟩ := by
  have h := redaction_rect_spec ⟨1/10, 1/10, 2/10, 1/20⟩ 1000 1000
    (by norm_num) (by norm_num) (by norm_num) (by norm_num)
    (by norm_num) (by norm_num)
  exact h

/-! ## LLM handler (`src/lambda/llm_handler.py`)

The success path (lines 63–101): after a successful classification the
results JSON is stored, `move_files_to_complete` copies every page from
`incoming/` to `complete/{document_id}/` and deletes the original (a
per-page failure is logged and skipped, lines 359–360), and the record is
marked `COMPLETE`.  S3 is modelled as an association list keyed by object
key; `lookupJob`/`setJob` serve as get/put, `s3del` as delete. -/

/-! ### Lemmas about `move_files_to_complete` -/

theorem lookupJob_s3del :
    ∀ (store : List (String × String)) (k k' : String),
      lookupJob (s3del store k) k' =
        if k = k' then none else lookupJob store k' := by
  intro store
  induction store with
  | nil =>
    intro k k'
    by_cases h : k = k'
    · rw [if_pos h]; rfl
    · rw [if_neg h]; rfl
  | cons kv rest ih =>
    obtain ⟨k₀, v₀⟩ := kv
    intro k k'
    show lookupJob
      (if k₀ = k then s3del rest k else (k₀, v₀) :: s3del rest k) k' = _
    by_cases h0 : k₀ = k
    · rw [if_pos h0, ih]
      by_cases h1 : k = k'
      · rw [if_pos h1, if_pos h1]
      · rw [if_neg h1, if_neg h1]
        show lookupJob rest k' = if k₀ = k' then some v₀ else lookupJob rest k'
        rw [if_neg (fun hh => h1 (h0.symm.trans hh))]
    · rw [if_neg h0]
      show (if k₀ = k' then some v₀ else lookupJob (s3del rest k) k') = _
      by_cases h1 : k₀ = k'
      · have h2 : ¬ k = k' := fun he => h0 (h1.trans he.symm)
        rw [if_pos h1, if_neg h2]
        show some v₀ = if k₀ = k' then some v₀ else lookupJob rest k'
        rw [if_pos h1]
      · rw [if_neg h1, ih]
        by_cases h2 : k = k'
        · rw [if_pos h2, if_pos h2]
        · rw [if_neg h2, if_neg h2]
          show lookupJob rest k' = if k₀ = k' then some v₀ else lookupJob rest k'
          rw [if_neg h1]

theorem replaceAllGo_not_contains (pat rep : List Char) :
    ∀ (s : List Char) (f : Nat), s.length ≤ f →
      occursIn pat s = false → replaceAllGo pat rep f s = s := by
  intro s
  induction s with
  | nil =>
    intro f _ _
    cases f with
    | zero => rfl
    | succ f => rfl
  | cons c cs ih =>
    intro f hf hocc
    cases f with
    | zero => simp at hf
    | succ f =>
      unfold occursIn at hocc
      rw [Bool.or_eq_false_iff] at hocc
      show replaceAllGo pat rep (f + 1) (c :: cs) = c :: cs
      unfold replaceAllGo
      dsimp only
      rw [hocc.1]
      simp only [Bool.false_eq_true, if_false]
      rw [ih f (by simpa using hf) hocc.2]

theorem replaceAll_incoming_append (rep t : List Char)
    (hocc : occursIn "incoming/".data t = false) :
    replaceAll "incoming/".data rep ("incoming/".data ++ t) = rep ++ t := by
  unfold replaceAll
  rw [if_neg (by decide)]
  have h9 : "incoming/".data.length = 9 := by decide
  have hlen : ("incoming/".data ++ t).length = t.length + 8 + 1 := by
    rw [List.length_append, h9]
    omega
  rw [hlen]
  have hs : "incoming/".data ++ t = 'i' :: ("ncoming/".data ++ t) := rfl
  rw [hs]
  unfold replaceAllGo
  dsimp only
  have hpre' : "incoming/".data.isPrefixOf ('i' :: ("ncoming/".data ++ t))
      = true := by
    rw [← hs]
    exact List.isPrefixOf_iff_prefix.mpr (List.prefix_append _ _)
  rw [hpre']
  simp only [if_true]
  have hdrop : List.drop "incoming/".data.length
      ('i' :: ("ncoming/".data ++ t)) = t := by
    rw [← hs]
    exact List.drop_left "incoming/".data t
  rw [hdrop,
    replaceAllGo_not_contains _ _ t (t.length + 8) (by omega) hocc]

theorem pyReplace_incoming (docId r : String)
    (hocc : occursIn "incoming/".data r.data = false) :
    pyReplace ("incoming/" ++ r) "incoming/" ("complete/" ++ docId ++ "/")
      = ("complete/" ++ docId ++ "/") ++ r := by
  unfold pyReplace
  apply String.ext
  show replaceAll "incoming/".data ("complete/" ++ docId ++ "/").data
      ("incoming/" ++ r).data = _
  rw [String.data_append "incoming/" r, replaceAll_incoming_append _ _ hocc]
  exact (String.data_append _ _).symm

theorem ne_of_data_head {a b : String} (h : a.data.head? ≠ b.data.head?) :
    a ≠ b := by
  intro he
  rw [he] at h
  exact h rfl

theorem head_incoming (r : String) :
    ("incoming/" ++ r).data.head? = some 'i' := by
  rw [String.data_append]
  rfl

theorem head_complete (docId r : String) :
    (("complete/" ++ docId ++ "/") ++ r).data.head? = some 'c' := by
  rw [String.data_append, String.data_append, String.data_append]
  rfl

theorem head_resultKey (docId : String) :
    (resultKeyOf docId).data.head? = some 'r' := by
  unfold resultKeyOf
  rw [String.data_append, String.data_append]
  rfl

theorem incoming_ne_complete (docId r x : String) :
    "incoming/" ++ r ≠ ("complete/" ++ docId ++ "/") ++ x :=
  ne_of_data_head (by rw [head_incoming, head_complete]; intro h; cases h)

theorem incoming_ne_resultKey (docId r : String) :
    "incoming/" ++ r ≠ resultKeyOf docId :=
  ne_of_data_head (by rw [head_incoming, head_resultKey]; intro h; cases h)

theorem str_append_cancel_left {a b c : String} (h : a ++ b = a ++ c) :
    b = c := by
  have hd := congrArg String.data h
  rw [String.data_append, String.data_append] at hd
  exact String.ext (List.append_cancel_left hd)

/-- One-step unfolding of the `move_files_to_complete` loop. -/
theorem moveFiles_cons (env : MoveEnv) (docId : String)
    (store : List (String × String)) (q : String) (ps : List String) :
    moveFiles env docId store (q :: ps) =
      (match lookupJob store q with
        | none => moveFiles env docId store ps
        | some v =>
          if env.copyFails q then moveFiles env docId store ps
          else
            if env.deleteFails q then
              moveFiles env docId
                (setJob store
                  (pyReplace q "incoming/" ("complete/" ++ docId ++ "/")) v) ps
            else
              ((moveFiles env docId
                  (s3del (setJob store
                    (pyReplace q "incoming/" ("complete/" ++ docId ++ "/")) v)
                    q) ps).1,
                pyReplace q "incoming/" ("complete/" ++ docId ++ "/") ::
                  (moveFiles env docId
                    (s3del (setJob store
                      (pyReplace q "incoming/" ("complete/" ++ docId ++ "/")) v)
                      q) ps).2)) := rfl

theorem moveFiles_cons_missing {env : MoveEnv} {docId : String}
    {store : List (String × String)} {q : String} {ps : List String}
    (hg : lookupJob store q = none) :
    moveFiles env docId store (q :: ps) = moveFiles env docId store ps := by
  rw [moveFiles_cons, hg]

theorem moveFiles_cons_copyFail {env : MoveEnv} {docId : String}
    {store : List (String × String)} {q v : String} {ps : List String}
    (hg : lookupJob store q = some v) (hc : env.copyFails q = true) :
    moveFiles env docId store (q :: ps) = moveFiles env docId store ps := by
  rw [moveFiles_cons, hg]
  dsimp only
  rw [hc, if_pos rfl]

theorem moveFiles_cons_delFail {env : MoveEnv} {docId : String}
    {store : List (String × String)} {q v : String} {ps : List String}
    (hg : lookupJob store q = some v) (hc : env.copyFails q = false)
    (hd : env.deleteFails q = true) :
    moveFiles env docId store (q :: ps) =
      moveFiles env docId
        (setJob store (pyReplace q "incoming/" ("complete/" ++ docId ++ "/"))
          v) ps := by
  rw [moveFiles_cons, hg]
  dsimp only
  rw [hc]
  simp only [Bool.false_eq_true, if_false]
  rw [hd, if_pos rfl]

theorem moveFiles_cons_full {env : MoveEnv} {docId : String}
    {store : List (String × String)} {q v : String} {ps : List String}
    (hg : lookupJob store q = some v) (hc : env.copyFails q = false)
    (hd : env.deleteFails q = false) :
    moveFiles env docId store (q :: ps) =
      ((moveFiles env docId
          (s3del (setJob store
            (pyReplace q "incoming/" ("complete/" ++ docId ++ "/")) v) q)
          ps).1,
        pyReplace q "incoming/" ("complete/" ++ docId ++ "/") ::
          (moveFiles env docId
            (s3del (setJob store
              (pyReplace q "incoming/" ("complete/" ++ docId ++ "/")) v) q)
            ps).2) := by
  rw [moveFiles_cons, hg]
  dsimp only
  rw [hc, hd]
  simp only [Bool.false_eq_true, if_false]

/-- A key that is neither a page scheduled for deletion nor the copy
destination of a page that still exists keeps its binding across
`move_files_to_complete`. -/
theorem moveFiles_preserves (env : MoveEnv) (docId : String) :
    ∀ (pages : List String) (store : List (String × String)) (k : String),
      (∀ q ∈ pages, ∃ r, q = "incoming/" ++ r ∧
        occursIn "incoming/".data r.data = false) →
      (∀ q ∈ pages, q = k →
        env.copyFails q = true ∨ lookupJob store q = none) →
      (∀ q ∈ pages,
        pyReplace q "incoming/" ("complete/" ++ docId ++ "/") = k →
        lookupJob store q = none) →
      lookupJob (moveFiles env docId store pages).1 k = lookupJob store k := by
  intro pages
  induction pages with
  | nil => intro store k _ _ _; rfl
  | cons q ps ih =>
    intro store k hpre h2 h3
    obtain ⟨r, hq, hocc⟩ := hpre q (List.mem_cons_self q ps)
    have hnkq : pyReplace q "incoming/" ("complete/" ++ docId ++ "/")
        = ("complete/" ++ docId ++ "/") ++ r := by
      rw [hq]
      exact pyReplace_incoming docId r hocc
    have hpre' := fun q' hq' => hpre q' (List.mem_cons_of_mem q hq')
    cases hg : lookupJob store q with
    | none =>
      rw [moveFiles_cons_missing hg]
      exact ih store k hpre'
        (fun q' hq' he => h2 q' (List.mem_cons_of_mem q hq') he)
        (fun q' hq' he => h3 q' (List.mem_cons_of_mem q hq') he)
    | some v =>
      cases hc : env.copyFails q with
      | true =>
        rw [moveFiles_cons_copyFail hg hc]
        exact ih store k hpre'
          (fun q' hq' he => h2 q' (List.mem_cons_of_mem q hq') he)
          (fun q' hq' he => h3 q' (List.mem_cons_of_mem q hq') he)
      | false =>
        have hqk : q ≠ k := by
          intro he
          rcases h2 q (List.mem_cons_self q ps) he with h | h
          · rw [hc] at h; cases h
          · rw [hg] at h; cases h
        have hnkk : pyReplace q "incoming/" ("complete/" ++ docId ++ "/")
            ≠ k := by
          intro he
          have := h3 q (List.mem_cons_self q ps) he
          rw [hg] at this
          cases this
        have hput : ∀ q' : String, q' ≠
            pyReplace q "incoming/" ("complete/" ++ docId ++ "/") →
            lookupJob (setJob store
              (pyReplace q "incoming/" ("complete/" ++ docId ++ "/")) v) q'
              = lookupJob store q' := by
          intro q' hne
          rw [lookupJob_setJob, if_neg (fun hh => hne hh.symm)]
        have hincne : ∀ q' ∈ ps, q' ≠
            pyReplace q "incoming/" ("complete/" ++ docId ++ "/") := by
          intro q' hq'
          obtain ⟨r', hq'e, _⟩ := hpre q' (List.mem_cons_of_mem q hq')
          rw [hq'e, hnkq]
          exact incoming_ne_complete docId r' r
        cases hd : env.deleteFails q with
        | true =>
          rw [moveFiles_cons_delFail hg hc hd]
          have := ih (setJob store
            (pyReplace q "incoming/" ("complete/" ++ docId ++ "/")) v) k hpre'
            (fun q' hq' he => by
              rcases h2 q' (List.mem_cons_of_mem q hq') he with h | h
              · exact Or.inl h
              · exact Or.inr (by rw [hput q' (hincne q' hq'), h]))
            (fun q' hq' he => by
              have h := h3 q' (List.mem_cons_of_mem q hq') he
              rw [hput q' (hincne q' hq'), h])
          rw [this, hput k (fun hh => hnkk hh.symm)]
        | false =>
          rw [moveFiles_cons_full hg hc hd]
          have hdel : ∀ q' : String, q' ≠ q →
              lookupJob (s3del (setJob store
                (pyReplace q "incoming/" ("complete/" ++ docId ++ "/")) v) q)
                q' = lookupJob (setJob store
                  (pyReplace q "incoming/" ("complete/" ++ docId ++ "/")) v)
                  q' := by
            intro q' hne
            rw [lookupJob_s3del, if_neg (fun hh => hne hh.symm)]
          have hnone : lookupJob (s3del (setJob store
              (pyReplace q "incoming/" ("complete/" ++ docId ++ "/")) v) q) q
              = none := by
            rw [lookupJob_s3del, if_pos rfl]
          have := ih (s3del (setJob store
            (pyReplace q "incoming/" ("complete/" ++ docId ++ "/")) v) q) k
            hpre'
            (fun q' hq' he => by
              by_cases hq'q : q' = q
              · exact Or.inr (by rw [hq'q, hnone])
              · rcases h2 q' (List.mem_cons_of_mem q hq') he with h | h
                · exact Or.inl h
                · exact Or.inr (by
                    rw [hdel q' hq'q, hput q' (hincne q' hq'), h]))
            (fun q' hq' he => by
              by_cases hq'q : q' = q
              · rw [hq'q, hnone]
              · have h := h3 q' (List.mem_cons_of_mem q hq') he
                rw [hdel q' hq'q, hput q' (hincne q' hq'), h])
          show lookupJob (moveFiles env docId (s3del (setJob store
            (pyReplace q "incoming/" ("complete/" ++ docId ++ "/")) v) q)
            ps).1 k = lookupJob store k
          rw [this, hdel k (fun hh => hqk hh.symm),
            hput k (fun hh => hnkk hh.symm)]

/-- The per-page loop of `move_files_to_complete` decomposes over list
concatenation. -/
theorem moveFiles_append (env : MoveEnv) (docId : String) :
    ∀ (l₁ l₂ : List String) (store : List (String × String)),
      moveFiles env docId store (l₁ ++ l₂) =
        ((moveFiles env docId (moveFiles env docId store l₁).1 l₂).1,
          (moveFiles env docId store l₁).2 ++
            (moveFiles env docId (moveFiles env docId store l₁).1 l₂).2) := by
  intro l₁
  induction l₁ with
  | nil =>
    intro l₂ store
    show moveFiles env docId store l₂ = _
    rfl
  | cons q l₁ ih =>
    intro l₂ store
    cases hg : lookupJob store q with
    | none =>
      show moveFiles env docId store (q :: (l₁ ++ l₂)) = _
      rw [moveFiles_cons_missing hg, moveFiles_cons_missing hg, ih]
    | some v =>
      cases hc : env.copyFails q with
      | true =>
        show moveFiles env docId store (q :: (l₁ ++ l₂)) = _
        rw [moveFiles_cons_copyFail hg hc, moveFiles_cons_copyFail hg hc, ih]
      | false =>
        cases hd : env.deleteFails q with
        | true =>
          show moveFiles env docId store (q :: (l₁ ++ l₂)) = _
          rw [moveFiles_cons_delFail hg hc hd, moveFiles_cons_delFail hg hc hd,
            ih]
        | false =>
          show moveFiles env docId store (q :: (l₁ ++ l₂)) = _
          rw [moveFiles_cons_full hg hc hd, moveFiles_cons_full hg hc hd, ih]
          rfl

/-- An `incoming/`-namespaced key that is only visited by the loop as a
copy-failing or absent page keeps its binding. -/
theorem moveFiles_preserves_source (env : MoveEnv) (docId : String)
    (pages : List String) (store : List (String × String)) (r : String)
    (hpre : ∀ q ∈ pages, ∃ s, q = "incoming/" ++ s ∧
      occursIn "incoming/".data s.data = false)
    (hsrc : ∀ q ∈ pages, q = "incoming/" ++ r →
      env.copyFails q = true ∨ lookupJob store q = none) :
    lookupJob (moveFiles env docId store pages).1 ("incoming/" ++ r)
      = lookupJob store ("incoming/" ++ r) := by
  refine moveFiles_preserves env docId pages store _ hpre hsrc ?_
  intro q hq he
  obtain ⟨s, hqe, hocc⟩ := hpre q hq
  rw [hqe, pyReplace_incoming docId s hocc] at he
  exact absurd he.symm (incoming_ne_complete docId r s)

/-- A `complete/{docId}/`-namespaced key whose source page is not among the
visited pages keeps its binding. -/
theorem moveFiles_preserves_dest (env : MoveEnv) (docId : String)
    (pages : List String) (store : List (String × String)) (r : String)
    (hpre : ∀ q ∈ pages, ∃ s, q = "incoming/" ++ s ∧
      occursIn "incoming/".data s.data = false)
    (hnotin : ("incoming/" ++ r) ∉ pages) :
    lookupJob (moveFiles env docId store pages).1
        (("complete/" ++ docId ++ "/") ++ r)
      = lookupJob store (("complete/" ++ docId ++ "/") ++ r) := by
  refine moveFiles_preserves env docId pages store _ hpre ?_ ?_
  · intro q hq he
    obtain ⟨s, hqe, _⟩ := hpre q hq
    rw [hqe] at he
    exact absurd he (incoming_ne_complete docId s r)
  · intro q hq he
    obtain ⟨s, hqe, hocc⟩ := hpre q hq
    rw [hqe, pyReplace_incoming docId s hocc] at he
    have hs : s = r := str_append_cancel_left he
    rw [hs] at hqe
    exact absurd (hqe ▸ hq) hnotin

/-- C9: on successful classification the LLM handler marks the document
`COMPLETE` with no error recorded; every page whose copy and delete both
succeed is moved — its original `incoming/` key no longer exists and the
`complete/{document_id}/` key holds the original object — while a page
whose copy fails keeps its original binding, and the document is still
marked `COMPLETE` (the per-page failure is skipped, not propagated). -/
theorem llm_move_to_complete_frame
    (env : MoveEnv) (docId docType resultsJson : String)
    (pages : List String) (store : List (String × String))
    (hpre : ∀ q ∈ pages, ∃ r, q = "incoming/" ++ r ∧
      occursIn "incoming/".data r.data = false)
    (hnd : pages.Nodup) :
    (runLlmHandler env docId pages (Except.ok docType) resultsJson
        store).status = "COMPLETE" ∧
    (runLlmHandler env docId pages (Except.ok docType) resultsJson
        store).lastError = none ∧
    (∀ p ∈ pages, env.copyFails p = false → env.deleteFails p = false →
      lookupJob (runLlmHandler env docId pages (Except.ok docType)
        resultsJson store).store p = none ∧
      ∀ v, lookupJob store p = some v →
        lookupJob (runLlmHandler env docId pages (Except.ok docType)
          resultsJson store).store
          (pyReplace p "incoming/" ("complete/" ++ docId ++ "/"))
          = some v) ∧
    (∀ p ∈ pages, env.copyFails p = true →
      lookupJob (runLlmHandler env docId pages (Except.ok docType)
        resultsJson store).store p = lookupJob store p) := by
  have hres : (runLlmHandler env docId pages (Except.ok docType) resultsJson
      store).store
      = (moveFiles env docId (setJob store (resultKeyOf docId) resultsJson)
          pages).1 := rfl
  refine ⟨rfl, rfl, ?_, ?_⟩
  · intro p hp hc hd
    rw [hres]
    obtain ⟨r, hpe, hocc⟩ := hpre p hp
    have hne2 : ¬(resultKeyOf docId = p) := by
      intro h
      exact incoming_ne_resultKey docId r (by rw [← hpe]; exact h.symm)
    have h1 : lookupJob (setJob store (resultKeyOf docId) resultsJson) p
        = lookupJob store p := by
      rw [lookupJob_setJob, if_neg hne2]
    obtain ⟨l₁, l₂, rfl⟩ := List.append_of_mem hp
    obtain ⟨hnd1, hnd2, hdisj⟩ := List.nodup_append.mp hnd
    have hp1 : p ∉ l₁ := fun h => hdisj h (List.mem_cons_self p l₂)
    have hp2 : p ∉ l₂ := (List.nodup_cons.mp hnd2).1
    have hpreA : ∀ q ∈ l₁, ∃ s, q = "incoming/" ++ s ∧
        occursIn "incoming/".data s.data = false :=
      fun q hq => hpre q (List.mem_append_left _ hq)
    have hpreB : ∀ q ∈ l₂, ∃ s, q = "incoming/" ++ s ∧
        occursIn "incoming/".data s.data = false :=
      fun q hq => hpre q (List.mem_append_right _ (List.mem_cons_of_mem _ hq))
    have hAp : lookupJob (moveFiles env docId
        (setJob store (resultKeyOf docId) resultsJson) l₁).1 p
        = lookupJob (setJob store (resultKeyOf docId) resultsJson) p := by
      rw [hpe]
      exact moveFiles_preserves_source env docId l₁ _ r hpreA
        (fun q hq he =>
          absurd (show p ∈ l₁ by rw [hpe, ← he]; exact hq) hp1)
    rw [moveFiles_append]
    dsimp only
    cases hv : lookupJob store p with
    | none =>
      constructor
      · have hAnone : lookupJob (moveFiles env docId
            (setJob store (resultKeyOf docId) resultsJson) l₁).1 p = none := by
          rw [hAp, h1, hv]
        rw [moveFiles_cons_missing hAnone, hpe,
          moveFiles_preserves_source env docId l₂ _ r hpreB
            (fun q hq he =>
              absurd (show p ∈ l₂ by rw [hpe, ← he]; exact hq) hp2),
          ← hpe, hAp, h1, hv]
      · intro v hv'
        exact Option.noConfusion hv'
    | some v₀ =>
      have hApv : lookupJob (moveFiles env docId
          (setJob store (resultKeyOf docId) resultsJson) l₁).1 p
          = some v₀ := by
        rw [hAp, h1, hv]
      rw [moveFiles_cons_full hApv hc hd]
      dsimp only
      constructor
      · rw [hpe,
          moveFiles_preserves_source env docId l₂ _ r hpreB
            (fun q hq he =>
              absurd (show p ∈ l₂ by rw [hpe, ← he]; exact hq) hp2),
          lookupJob_s3del, if_pos rfl]
      · intro v hv'
        cases hv'
        have hnotinB : ("incoming/" ++ r) ∉ l₂ := by
          rw [← hpe]; exact hp2
        rw [hpe, pyReplace_incoming docId r hocc,
          moveFiles_preserves_dest env docId l₂ _ r hpreB hnotinB,
          lookupJob_s3del, if_neg (incoming_ne_complete docId r r),
          lookupJob_setJob, if_pos rfl]
  · intro p hp hc
    rw [hres]
    obtain ⟨r, hpe, hocc⟩ := hpre p hp
    have hne2 : ¬(resultKeyOf docId = p) := by
      intro h
      exact incoming_ne_resultKey docId r (by rw [← hpe]; exact h.symm)
    rw [hpe,
      moveFiles_preserves_source env docId pages _ r hpre
        (fun q hq he => Or.inl (by rw [he, ← hpe]; exact hc)),
      ← hpe, lookupJob_setJob, if_neg hne2]

/-- C9 witness: a one-page document with a failure-free environment — after
the handler runs, the record is `COMPLETE`, the `incoming/` object is gone
and the `complete/doc/` copy holds the original bytes. -/
theorem llm_move_to_complete_frame_witness :
    (runLlmHandler mvEnvOk "doc" ["incoming/doc_1.jpg"] (Except.ok "invoice")
      "res" [("incoming/doc_1.jpg", "IMG")]).status = "COMPLETE" ∧
    lookupJob (runLlmHandler mvEnvOk "doc" ["incoming/doc_1.jpg"]
      (Except.ok "invoice") "res" [("incoming/doc_1.jpg", "IMG")]).store
      "incoming/doc_1.jpg" = none ∧
    lookupJob (runLlmHandler mvEnvOk "doc" ["incoming/doc_1.jpg"]
      (Except.ok "invoice") "res" [("incoming/doc_1.jpg", "IMG")]).store
      "complete/doc/doc_1.jpg" = some "IMG" := by
  have h := llm_move_to_complete_frame mvEnvOk "doc" "invoice" "res"
    ["incoming/doc_1.jpg"] [("incoming/doc_1.jpg", "IMG")]
    (fun q hq => by
      rw [List.mem_singleton] at hq
      rw [hq]
      exact ⟨"doc_1.jpg", by decide, by decide⟩)
    (List.nodup_singleton _)
  have hm : "incoming/doc_1.jpg" ∈ ["incoming/doc_1.jpg"] :=
    List.mem_singleton.mpr rfl
  have h3 := h.2.2.1 "incoming/doc_1.jpg" hm rfl rfl
  have hk : pyReplace "incoming/doc_1.jpg" "incoming/"
      ("complete/" ++ "doc" ++ "/") = "complete/doc/doc_1.jpg" := by decide
  refine ⟨h.1, h3.1, ?_⟩
  have h4 := h3.2 "IMG" (by decide)
  rw [hk] at h4
  exact h4

/-! ## PII handler (pii_handler.py)

`lambda_handler` iterates `enumerate(zip(pages, ocr_text_keys))` (line 73);
per page it reads the OCR text (`get_ocr_text`, which catches every read
failure and returns `""`, lines 159–166), fetches the Textract LINE blocks,
runs `detect_pii_in_text`, and — only when detections are non-empty — maps
them to bounding boxes and redacts the image (`redact_image` catches its
own failures and returns `None`).  On normal termination the record gets
`pii_processing_complete = True` and `pii_error = None` (lines 119–128);
the only exception raised before that point is the empty-`ocr_text_keys`
`ValueError` (line 60).  S3 `put_object` and the DynamoDB write themselves
are outside the model; the SQS envelope parsing only extracts the fields
that are passed here as arguments.

The `re` patterns are embedded as an executable backtracking matcher with
Python's strategy: ordered alternation, greedy quantifiers with
backtracking, and zero-width word-boundary assertions; `re.IGNORECASE` is
applied by case-folding literals and letter classes.  Character classes
are modelled over ASCII. -/

/-! ### Lemmas about the PII handler -/

theorem detect_pii_in_text_empty : detect_pii_in_text "" = [] := by decide

theorem processPiiPage_missing (env : PiiEnv) (docId : String) (n : Nat)
    (pk ok : String) (h : env.s3read ok = none) :
    processPiiPage env docId n pk ok
      = { detections := [], redactedKey := none } := by
  unfold processPiiPage
  rw [h]
  rfl

theorem runPiiHandler_ne_empty (env : PiiEnv) (docId : String)
    (pages ocrKeys : List String) (h : ocrKeys.isEmpty = false) :
    runPiiHandler env docId pages ocrKeys
      = { piiComplete := true, piiError := none,
          pageOutcomes := piiOutcomes env docId pages ocrKeys,
          detectedPii := (piiOutcomes env docId pages ocrKeys).any
            (fun o => !o.detections.isEmpty),
          redactedImages := (piiOutcomes env docId pages ocrKeys).filterMap
            (fun o => o.redactedKey) } := by
  unfold runPiiHandler
  rw [h]
  simp only [Bool.false_eq_true, if_false]

theorem listMapGet? {α β : Type} (f : α → β) :
    ∀ (l : List α) (n : Nat), (l.map f).get? n = (l.get? n).map f := by
  intro l
  induction l with
  | nil => intro n; cases n with | zero => rfl | succ m => rfl
  | cons a l ih =>
    intro n
    cases n with
    | zero => rfl
    | succ m => exact ih m

theorem enumFromGet? {α : Type} :
    ∀ (l : List α) (k n : Nat),
      (List.enumFrom k l).get? n = (l.get? n).map (fun a => (k + n, a)) := by
  intro l
  induction l with
  | nil => intro k n; cases n with | zero => rfl | succ m => rfl
  | cons a l ih =>
    intro k n
    cases n with
    | zero =>
      show some (k, a) = some (k + 0, a)
      rw [Nat.add_zero]
    | succ m =>
      show (List.enumFrom (k + 1) l).get? m
        = (l.get? m).map (fun a => (k + (m + 1), a))
      rw [ih (k + 1) m]
      have he : k + 1 + m = k + (m + 1) := by omega
      rw [he]

theorem zipGet? {α β : Type} :
    ∀ (l₁ : List α) (l₂ : List β) (n : Nat) (h₁ : n < l₁.length)
      (h₂ : n < l₂.length),
      (l₁.zip l₂).get? n = some (l₁.get ⟨n, h₁⟩, l₂.get ⟨n, h₂⟩) := by
  intro l₁
  induction l₁ with
  | nil => intro l₂ n h₁ h₂; exact absurd h₁ (Nat.not_lt_zero n)
  | cons a l₁ ih =>
    intro l₂ n h₁ h₂
    cases l₂ with
    | nil => exact absurd h₂ (Nat.not_lt_zero n)
    | cons b l₂ =>
      cases n with
      | zero => rfl
      | succ m =>
        exact ih l₂ m (Nat.lt_of_succ_lt_succ h₁) (Nat.lt_of_succ_lt_succ h₂)

/-- C10: if reading a page's OCR text artifact fails, the PII handler
treats that page's text as the empty string: the page yields zero PII
detections and no redacted image, and the run still finishes normally
with `pii_processing_complete = True` and `pii_error = None`. -/
theorem pii_missing_text_graceful
    (env : PiiEnv) (docId : String) (pages ocrKeys : List String)
    (i : Nat) (h₁ : i < pages.length) (h₂ : i < ocrKeys.length)
    (hread : env.s3read (ocrKeys.get ⟨i, h₂⟩) = none) :
    (runPiiHandler env docId pages ocrKeys).piiComplete = true ∧
    (runPiiHandler env docId pages ocrKeys).piiError = none ∧
    (runPiiHandler env docId pages ocrKeys).pageOutcomes.get? i
      = some { detections := [], redactedKey := none } := by
  have hemp : ocrKeys.isEmpty = false := by
    cases ocrKeys with
    | nil => exact absurd h₂ (Nat.not_lt_zero i)
    | cons a l => rfl
  rw [runPiiHandler_ne_empty env docId pages ocrKeys hemp]
  refine ⟨rfl, rfl, ?_⟩
  show (piiOutcomes env docId pages ocrKeys).get? i = _
  unfold piiOutcomes
  rw [listMapGet?]
  show ((List.enumFrom 0 (pages.zip ocrKeys)).get? i).map _ = _
  rw [enumFromGet?, zipGet? pages ocrKeys i h₁ h₂]
  dsimp only [Option.map]
  have h0 : 0 + i = i := Nat.zero_add i
  rw [h0, processPiiPage_missing env docId (i + 1) _ _ hread]

/-- C10 witness: a one-page document whose OCR text key cannot be read —
the run completes with no error and the page outcome is empty. -/
theorem pii_missing_text_graceful_witness :
    (runPiiHandler piiEnvMissing "doc" ["incoming/doc_1.jpg"]
      ["staging/doc/text_page_1.txt"]).piiComplete = true ∧
    (runPiiHandler piiEnvMissing "doc" ["incoming/doc_1.jpg"]
      ["staging/doc/text_page_1.txt"]).piiError = none ∧
    (runPiiHandler piiEnvMissing "doc" ["incoming/doc_1.jpg"]
      ["staging/doc/text_page_1.txt"]).pageOutcomes.get? 0
      = some { detections := [], redactedKey := none } :=
  pii_missing_text_graceful piiEnvMissing "doc" ["incoming/doc_1.jpg"]
    ["staging/doc/text_page_1.txt"] 0 (by decide) (by decide) rfl

end DocProc
